import Mathlib

/-!
Verification development for the label-to-color resolver of Text2Cal
(`src/src/index.ts`).  The resolver maps user-supplied text labels to a
fixed set of color slots stored in a spreadsheet-like table ("colors"
sheet), with a TTL row cache and a global script lock around allocation.

Strings are modelled as `List Char`; a sheet is the grid returned by
`getDataRange().getValues()` (row 0 is the header).  The script state
carries the sheet, the cache (`CacheService` entry for the rows, or
`none`) and the lock bit.  All functions below are direct transcriptions
of the TypeScript source; line references point into `src/src/index.ts`.
-/

namespace Text2Cal

abbrev Str := List Char

/-- Model of JavaScript `String.prototype.trim` on the left end:
drop leading whitespace characters. -/
def trimLeftStr : Str → Str
  | [] => []
  | c :: cs => if c.isWhitespace then trimLeftStr cs else c :: cs

/-- Model of JavaScript `String.prototype.trim`: drop leading and
trailing whitespace. -/
def trimStr (s : Str) : Str :=
  (trimLeftStr ((trimLeftStr s).reverse)).reverse

/-- Model of `replace(/^#/, "")`: strip at most one leading `#`. -/
def stripHash : Str → Str
  | '#' :: cs => cs
  | s => s

/-- `normalizeLabel_` (index.ts line 202-204): trim, strip one leading
`#`, trim again. -/
def normalizeLabel_ (s : Str) : Str :=
  trimStr (stripHash (trimStr s))

/-- Model of JavaScript `Number(...)` restricted to the digit strings the
table is expected to hold: `some n` when the string is a non-empty digit
sequence, `none` (NaN) otherwise. -/
def parseNum? (s : Str) : Option Nat :=
  if s ≠ [] ∧ s.all (·.isDigit) then
    some (s.foldl (fun n c => n * 10 + (c.toNat - 48)) 0)
  else none

/-- A parsed row of the "colors" sheet (index.ts line 157-163).
`rowIndex` is the 1-based sheet row. -/
structure ColorsRow where
  rowIndex : Nat
  colorId : Str
  label : Str
  background : Str
  foreground : Str
deriving DecidableEq

/-- The comparator `(a, b) => Number(a.colorId) - Number(b.colorId)`
(index.ts line 197), as a boolean "less or equal".  When either side is
NaN the subtraction is NaN, which `Array.prototype.sort` treats as 0
(keep relative order), hence `true`. -/
def rowLe (a b : ColorsRow) : Bool :=
  match parseNum? a.colorId, parseNum? b.colorId with
  | some x, some y => Nat.ble x y
  | _, _ => true

/-- Stable insertion used by `sortRows`. -/
def insertRow (x : ColorsRow) : List ColorsRow → List ColorsRow
  | [] => [x]
  | y :: ys => if rowLe x y then x :: y :: ys else y :: insertRow x ys

/-- Stable sort modelling `rows.sort((a, b) => Number(a.colorId) -
Number(b.colorId))` (index.ts line 197). -/
def sortRows : List ColorsRow → List ColorsRow
  | [] => []
  | x :: xs => insertRow x (sortRows xs)

/-- JavaScript `Array.prototype.indexOf` on the header row: index of the
first occurrence, `none` standing for `-1`. -/
def indexOf? (x : Str) : List Str → Option Nat
  | [] => none
  | y :: ys => if y = x then some 0 else (indexOf? x ys).map (· + 1)

/-- The four required column names of the colors sheet. -/
def reqId : Str := "colorId".toList

def reqLabel : Str := "label".toList

def reqBackground : Str := "background".toList

def reqForeground : Str := "foreground".toList

/-- The record pushed by the loop of `loadColorsRows_` (index.ts line
188-194) for the data row `r` at 1-based sheet row `ri`: each field is
the trimmed cell at that column index, missing cells (`?? ""`) reading
as the empty string. -/
def mkRowAt (idxId idxLabel idxBg idxFg ri : Nat) (r : List Str) : ColorsRow :=
  { rowIndex := ri
    colorId := trimStr (r.getD idxId [])
    label := trimStr (r.getD idxLabel [])
    background := trimStr (r.getD idxBg [])
    foreground := trimStr (r.getD idxFg []) }

/-- The loop of `loadColorsRows_` (index.ts line 183-195): walk the data
rows, skip rows whose `colorId` cell is blank after trimming, and record
`rowIndex = i + 1` for the row at `values` index `i`. -/
def buildRows (idxId idxLabel idxBg idxFg : Nat) : Nat → List (List Str) → List ColorsRow
  | _, [] => []
  | i, r :: rest =>
    if trimStr (r.getD idxId []) = [] then buildRows idxId idxLabel idxBg idxFg (i + 1) rest
    else
      mkRowAt idxId idxLabel idxBg idxFg (i + 1) r :: buildRows idxId idxLabel idxBg idxFg (i + 1) rest

/-- Errors thrown by the resolver code paths. -/
inductive ResolveError where
  | noDataRows
  | badHeader
  | lockTimeout
  | noCapacity (label : Str)
  | missingLabelColumn
deriving DecidableEq

/-- The trimmed header row, `values[0].map(v => String(v).trim())`
(index.ts line 174). -/
def headerOf (values : List (List Str)) : List Str :=
  (values.headD []).map trimStr

/-- The pure part of `loadColorsRows_` (index.ts line 165-200) after a
cache miss: read the grid, check the header for the four required column
names, build the rows skipping blank `colorId` cells, and sort by
numeric `colorId`. -/
def loadFromSheet (values : List (List Str)) : Except ResolveError (List ColorsRow) :=
  if values.length < 2 then .error .noDataRows
  else
    match indexOf? reqId (headerOf values), indexOf? reqLabel (headerOf values),
          indexOf? reqBackground (headerOf values), indexOf? reqForeground (headerOf values) with
    | some idxId, some idxLabel, some idxBg, some idxFg =>
        .ok (sortRows (buildRows idxId idxLabel idxBg idxFg 1 (values.drop 1)))
    | _, _, _, _ => .error .badHeader

/-- The script-visible state: the colors sheet grid, the
`CACHE_COLORS_ROWS_V3` cache entry, and the script lock. -/
structure ScriptState where
  sheet : List (List Str)
  cache : Option (List ColorsRow)
  locked : Bool
deriving DecidableEq

/-- `loadColorsRows_` (index.ts line 165-200): serve from the cache when
present, otherwise parse the sheet and populate the cache. -/
def loadColorsRows_ (st : ScriptState) : Except ResolveError (List ColorsRow) × ScriptState :=
  match st.cache with
  | some rows => (.ok rows, st)
  | none =>
    match loadFromSheet st.sheet with
    | .error e => (.error e, st)
    | .ok rows => (.ok rows, { st with cache := some rows })

/-- `invalidateCache` (index.ts line 153-155). -/
def invalidateCache (st : ScriptState) : ScriptState :=
  { st with cache := none }

/-- `sheet.getRange(row, col).setValue(v)` with 0-based indices: update
one cell of the grid (no-op outside the grid, as real sheets are never
addressed out of range here). -/
def setCell (values : List (List Str)) (r c : Nat) (v : Str) : List (List Str) :=
  values.set r ((values.getD r []).set c v)

/-- Cell lookup used to state sheet-mutation properties. -/
def cellAt (values : List (List Str)) (r c : Nat) : Str :=
  (values.getD r []).getD c []

/-- The body of the critical section of `resolveOrAssignColorIdByLabel_`
(index.ts line 225-246), entered with the lock held: invalidate the
cache, re-read the rows from the sheet, re-check for an existing match,
else find the first empty slot, re-resolve the label column from the
live header and write the normalized label there, then invalidate the
cache again. -/
def criticalSection (normalized : Str) (st0 : ScriptState) : Except ResolveError (Option Str) × ScriptState :=
  let st1 := invalidateCache st0
  match loadColorsRows_ st1 with
  | (.error e, st2) => (.error e, st2)
  | (.ok rows, st2) =>
    match rows.find? (fun r => normalizeLabel_ r.label = normalized) with
    | some existingLabel => (.ok (some existingLabel.colorId), st2)
    | none =>
      match rows.find? (fun r => r.label = []) with
      | none => (.error (.noCapacity normalized), st2)
      | some empty =>
        match indexOf? reqLabel (headerOf st2.sheet) with
        | none => (.error .missingLabelColumn, st2)
        | some labelColIdx =>
          let st3 := { st2 with sheet := setCell st2.sheet (empty.rowIndex - 1) labelColIdx normalized }
          (.ok (some empty.colorId), invalidateCache st3)

/-- The slow path of `resolveOrAssignColorIdByLabel_` (index.ts line
216-250): `tryLock` with the 30s timeout, the critical section, and the
`finally` that always releases the lock (also after a failed `tryLock`,
exactly as in the source). -/
def slowPath (normalized : Str) (st : ScriptState) : Except ResolveError (Option Str) × ScriptState :=
  if st.locked then
    (.error .lockTimeout, { st with locked := false })
  else
    let out := criticalSection normalized { st with locked := true }
    (out.1, { out.2 with locked := false })

/-- `resolveOrAssignColorIdByLabel_` (index.ts line 206-250).  A `none`
or empty label (both falsy in `if (!label)`) and a label normalizing to
the empty string return `undefined` before any store access; otherwise
the fast path scans the cached or freshly loaded rows for a normalized
match, and only on a miss is the lock-protected slow path entered. -/
def resolveOrAssignColorIdByLabel_ (label : Option Str) (st : ScriptState) :
    Except ResolveError (Option Str) × ScriptState :=
  match label with
  | none => (.ok none, st)
  | some l =>
    if l = [] then (.ok none, st)
    else
      let normalized := normalizeLabel_ l
      if normalized = [] then (.ok none, st)
      else
        match loadColorsRows_ st with
        | (.error e, st1) => (.error e, st1)
        | (.ok initialRows, st1) =>
          match initialRows.find? (fun r => normalizeLabel_ r.label = normalized) with
          | some found => (.ok (some found.colorId), st1)
          | none => slowPath normalized st1

/-- Run a sequence of resolver calls, threading the state. -/
def runCalls (labels : List (Option Str)) (st : ScriptState) : ScriptState :=
  labels.foldl (fun s l => (resolveOrAssignColorIdByLabel_ l s).2) st

/-- Normalization written out word for word from the spec glossary:
"trimming and leading-marker stripping applied to labels", spelled as
trim, strip at most one leading marker, trim again. -/
def specNormalize (s : Str) : Str :=
  trimStr (stripHash (trimStr s))

/-- Every data row has the same width as the header row, as
`getDataRange().getValues()` guarantees for a real sheet. -/
def Rect (values : List (List Str)) : Prop :=
  ∀ j, j < values.length → (values.getD j []).length = (values.getD 0 []).length

/-- The invariant of spec section 3: among the parsed rows, at most one
row carries any given non-empty normalized label (vacuous when the sheet
does not parse). -/
def labelsDupFree (values : List (List Str)) : Bool :=
  match loadFromSheet values with
  | .error _ => true
  | .ok rows => rows.all fun r => rows.all fun s =>
      decide (r.label = [] ∨ s.label = [] ∨
        normalizeLabel_ r.label ≠ normalizeLabel_ s.label ∨ r = s)

/-! ## Concrete example tables used in witnesses and counterexamples -/

/-- A header row holding exactly the four required column names. -/
def exHeader : List Str := [reqId, reqLabel, reqBackground, reqForeground]

/-- A data row with the given `colorId` and `label` cells and fixed
display attributes. -/
def exRow (cid lab : Str) : List Str := [cid, lab, "b".toList, "f".toList]

def exSheetTwoEmpty : List (List Str) := [exHeader, exRow "1".toList [], exRow "2".toList []]

def exStTwoEmpty : ScriptState := ⟨exSheetTwoEmpty, none, false⟩

def exRowsTwoEmpty : List ColorsRow :=
  [⟨2, "1".toList, [], "b".toList, "f".toList⟩, ⟨3, "2".toList, [], "b".toList, "f".toList⟩]

def exSheetOneEmpty : List (List Str) := [exHeader, exRow "1".toList []]

def exStOneEmpty : ScriptState := ⟨exSheetOneEmpty, none, false⟩

def exRowsOneEmpty : List ColorsRow := [⟨2, "1".toList, [], "b".toList, "f".toList⟩]

def exSheetAcme : List (List Str) :=
  [exHeader, exRow "1".toList "Acme".toList, exRow "2".toList []]

def exStAcme : ScriptState := ⟨exSheetAcme, none, false⟩

def exRowsAcme : List ColorsRow :=
  [⟨2, "1".toList, "Acme".toList, "b".toList, "f".toList⟩,
   ⟨3, "2".toList, [], "b".toList, "f".toList⟩]

/-- Empty slots at identifiers 3, 5 and 7 (physically shuffled), slot 2
taken: the deterministic-allocation example of the spec. -/
def exSheet357 : List (List Str) :=
  [exHeader, exRow "7".toList [], exRow "3".toList [], exRow "5".toList [],
   exRow "2".toList "taken".toList]

def exSt357 : ScriptState := ⟨exSheet357, none, false⟩

def exRows357 : List ColorsRow :=
  [⟨5, "2".toList, "taken".toList, "b".toList, "f".toList⟩,
   ⟨3, "3".toList, [], "b".toList, "f".toList⟩,
   ⟨4, "5".toList, [], "b".toList, "f".toList⟩,
   ⟨2, "7".toList, [], "b".toList, "f".toList⟩]

def exSheetFull : List (List Str) :=
  [exHeader, exRow "1".toList "a".toList, exRow "2".toList "b".toList]

def exStFull : ScriptState := ⟨exSheetFull, none, false⟩

def exRowsFull : List ColorsRow :=
  [⟨2, "1".toList, "a".toList, "b".toList, "f".toList⟩,
   ⟨3, "2".toList, "b".toList, "b".toList, "f".toList⟩]

/-- A sheet whose header lacks the `label` column. -/
def exSheetNoLabelCol : List (List Str) :=
  [[reqId, reqBackground, reqForeground], ["1".toList, "b".toList, "f".toList]]

/-- A sheet with the four required columns in a non-canonical order. -/
def exSheetPermuted : List (List Str) :=
  [[reqForeground, reqLabel, reqId, reqBackground],
   ["f".toList, "Acme".toList, "9".toList, "b".toList]]

/-- A sheet whose first data row has a blank `colorId` cell. -/
def exSheetBlankId : List (List Str) :=
  [exHeader, exRow [] ("ghost".toList), exRow "1".toList []]

def exRowsBlankId : List ColorsRow := [⟨3, "1".toList, [], "b".toList, "f".toList⟩]

/-! ## Basic lemmas about the string operations -/

theorem trimLeftStr_sublist (s : Str) : (trimLeftStr s).Sublist s := by
  induction s with
  | nil => simp [trimLeftStr]
  | cons c cs ih =>
    by_cases h : c.isWhitespace
    · simpa [trimLeftStr, h] using ih.trans (List.sublist_cons_self c cs)
    · simp [trimLeftStr, h]

theorem trimStr_sublist (s : Str) : (trimStr s).Sublist s := by
  unfold trimStr
  have h1 : (trimLeftStr ((trimLeftStr s).reverse)).Sublist ((trimLeftStr s).reverse) :=
    trimLeftStr_sublist _
  have h2 : ((trimLeftStr ((trimLeftStr s).reverse)).reverse).Sublist (trimLeftStr s) := by
    have := List.reverse_sublist.mpr h1
    simpa using this.trans (by simp)
  exact h2.trans (trimLeftStr_sublist s)

theorem stripHash_sublist (s : Str) : (stripHash s).Sublist s := by
  unfold stripHash
  split
  · exact List.sublist_cons_self _ _
  · exact List.Sublist.refl _

theorem normalizeLabel_sublist (s : Str) : (normalizeLabel_ s).Sublist s :=
  (trimStr_sublist _).trans ((stripHash_sublist _).trans (trimStr_sublist s))

theorem normalizeLabel_nil : normalizeLabel_ [] = [] := rfl

/-! ## Lemmas about `indexOf?` -/

theorem indexOf?_getD {x : Str} {l : List Str} {i : Nat} (h : indexOf? x l = some i) :
    i < l.length ∧ l.getD i [] = x := by
  induction l generalizing i with
  | nil => simp [indexOf?] at h
  | cons y ys ih =>
    by_cases hy : y = x
    · simp [indexOf?, hy] at h
      subst h
      simpa using hy
    · simp [indexOf?, hy] at h
      obtain ⟨j, hj, rfl⟩ := h
      obtain ⟨h1, h2⟩ := ih hj
      refine ⟨?_, by simpa using h2⟩
      simp only [List.length_cons]
      omega

theorem indexOf?_ne {x y : Str} {l : List Str} {i j : Nat}
    (hx : indexOf? x l = some i) (hy : indexOf? y l = some j) (hxy : x ≠ y) : i ≠ j := by
  intro hij
  subst hij
  exact hxy ((indexOf?_getD hx).2 ▸ (indexOf?_getD hy).2 ▸ rfl)

theorem indexOf?_isSome_of_mem {x : Str} {l : List Str} : x ∈ l → (indexOf? x l).isSome := by
  induction l with
  | nil => intro h; simp at h
  | cons y ys ih =>
    intro h
    by_cases hy : y = x
    · simp [indexOf?, hy]
    · rw [List.mem_cons] at h
      rcases h with h | h
      · exact absurd h.symm hy
      · simpa [indexOf?, hy, Option.isSome_map] using ih h

theorem indexOf?_eq_none_of_not_mem {x : Str} {l : List Str} : x ∉ l → indexOf? x l = none := by
  induction l with
  | nil => intro _; rfl
  | cons y ys ih =>
    intro h
    have hy : y ≠ x := fun hxy => h (hxy ▸ List.mem_cons_self y ys)
    simp only [indexOf?, if_neg hy]
    rw [ih (fun hm => h (List.mem_cons_of_mem y hm))]
    rfl

/-! ## Lemmas about `List.find?` -/

theorem find?_eq_of_unique {p : ColorsRow → Bool} {l : List ColorsRow} {a : ColorsRow}
    (ha : a ∈ l) (hpa : p a = true) (uniq : ∀ b ∈ l, p b = true → b = a) :
    l.find? p = some a := by
  induction l with
  | nil => simp at ha
  | cons x xs ih =>
    by_cases hx : p x = true
    · rw [List.find?_cons_of_pos _ hx, uniq x (List.mem_cons_self x xs) hx]
    · rw [List.find?_cons_of_neg _ hx]
      rw [List.mem_cons] at ha
      rcases ha with rfl | ha
      · exact absurd hpa hx
      · exact ih ha (fun b hb hpb => uniq b (List.mem_cons_of_mem x hb) hpb)

theorem find?_min_of_pairwise {p : ColorsRow → Bool} {l : List ColorsRow} {a : ColorsRow}
    (hs : l.Pairwise (fun x y => rowLe x y = true)) (h : l.find? p = some a) :
    ∀ b ∈ l, p b = true → a = b ∨ rowLe a b = true := by
  induction l with
  | nil => simp at h
  | cons x xs ih =>
    rw [List.pairwise_cons] at hs
    by_cases hx : p x = true
    · rw [List.find?_cons_of_pos _ hx] at h
      cases h
      intro b hb _
      rw [List.mem_cons] at hb
      rcases hb with rfl | hb
      · exact Or.inl rfl
      · exact Or.inr (hs.1 b hb)
    · rw [List.find?_cons_of_neg _ hx] at h
      intro b hb hpb
      rw [List.mem_cons] at hb
      rcases hb with rfl | hb
      · exact absurd hpb hx
      · exact ih hs.2 h b hb hpb

/-! ## Lemmas about the sort -/

theorem mem_insertRow {x a : ColorsRow} {l : List ColorsRow} :
    a ∈ insertRow x l ↔ a = x ∨ a ∈ l := by
  induction l with
  | nil => simp [insertRow]
  | cons y ys ih =>
    by_cases h : rowLe x y = true
    · simp only [insertRow, if_pos h, List.mem_cons]
    · simp only [insertRow, if_neg h, List.mem_cons, ih]
      tauto

theorem mem_sortRows {a : ColorsRow} {l : List ColorsRow} :
    a ∈ sortRows l ↔ a ∈ l := by
  induction l with
  | nil => simp [sortRows]
  | cons x xs ih =>
    simp [sortRows, mem_insertRow, ih]

theorem rowLe_total (a b : ColorsRow) : rowLe a b = true ∨ rowLe b a = true := by
  unfold rowLe
  rcases ha : parseNum? a.colorId with _ | x <;> rcases hb : parseNum? b.colorId with _ | y <;>
    simp
  exact Nat.le_total x y

theorem pairwise_insertRow {x : ColorsRow} {l : List ColorsRow}
    (htrans : ∀ a ∈ x :: l, ∀ b ∈ x :: l, ∀ c ∈ x :: l,
      rowLe a b = true → rowLe b c = true → rowLe a c = true)
    (hl : l.Pairwise (fun a b => rowLe a b = true)) :
    (insertRow x l).Pairwise (fun a b => rowLe a b = true) := by
  induction l with
  | nil => simp [insertRow]
  | cons y ys ih =>
    rw [List.pairwise_cons] at hl
    by_cases h : rowLe x y = true
    · rw [insertRow, if_pos h, List.pairwise_cons]
      refine ⟨?_, List.pairwise_cons.mpr hl⟩
      intro b hb
      rw [List.mem_cons] at hb
      rcases hb with rfl | hb
      · exact h
      · exact htrans x (List.mem_cons_self _ _)
          y (List.mem_cons_of_mem _ (List.mem_cons_self _ _))
          b (List.mem_cons_of_mem _ (List.mem_cons_of_mem _ hb)) h (hl.1 b hb)
    · rw [insertRow, if_neg h, List.pairwise_cons]
      have hsub : ∀ z, z ∈ x :: ys → z ∈ x :: y :: ys := by
        intro z hz
        rw [List.mem_cons] at hz
        rcases hz with rfl | hz
        · exact List.mem_cons_self _ _
        · exact List.mem_cons_of_mem _ (List.mem_cons_of_mem _ hz)
      constructor
      · intro b hb
        rw [mem_insertRow] at hb
        rcases hb with rfl | hb
        · rcases rowLe_total b y with h' | h'
          · exact absurd h' h
          · exact h'
        · exact hl.1 b hb
      · refine ih ?_ hl.2
        intro a ha b hb c hc
        exact htrans a (hsub a ha) b (hsub b hb) c (hsub c hc)

theorem pairwise_sortRows {l : List ColorsRow}
    (htrans : ∀ a ∈ l, ∀ b ∈ l, ∀ c ∈ l,
      rowLe a b = true → rowLe b c = true → rowLe a c = true) :
    (sortRows l).Pairwise (fun a b => rowLe a b = true) := by
  induction l with
  | nil => simp [sortRows]
  | cons x xs ih =>
    rw [sortRows]
    have hsub : ∀ a, a ∈ x :: sortRows xs → a ∈ x :: xs := by
      intro a ha
      rw [List.mem_cons] at ha
      rcases ha with rfl | ha
      · exact List.mem_cons_self _ _
      · exact List.mem_cons_of_mem _ (mem_sortRows.mp ha)
    refine pairwise_insertRow ?_ (ih ?_)
    · intro a ha b hb c hc
      exact htrans a (hsub a ha) b (hsub b hb) c (hsub c hc)
    · intro a ha b hb c hc
      exact htrans a (List.mem_cons_of_mem _ ha) b (List.mem_cons_of_mem _ hb)
        c (List.mem_cons_of_mem _ hc)

/-! ## Pointwise lemmas about `getD`, `setCell` and `headerOf` -/

theorem getD_drop_one {α : Type} (l : List α) (j : Nat) (d : α) :
    (l.drop 1).getD j d = l.getD (j + 1) d := by
  cases l <;> simp [List.getD]

theorem headD_eq_getD {α : Type} (l : List α) (d : α) : l.headD d = l.getD 0 d := by
  cases l <;> rfl

theorem getD_set_self {α : Type} {l : List α} {i : Nat} {a d : α} (h : i < l.length) :
    (l.set i a).getD i d = a := by
  simp [List.getD_eq_getElem?_getD, List.getElem?_set_self h]

theorem getD_set_ne {α : Type} {l : List α} {i j : Nat} (h : i ≠ j) (a d : α) :
    (l.set i a).getD j d = l.getD j d := by
  simp [List.getD_eq_getElem?_getD, List.getElem?_set_ne h]

theorem length_setCell (values : List (List Str)) (r c : Nat) (v : Str) :
    (setCell values r c v).length = values.length :=
  List.length_set values r _

theorem getD_setCell_ne {values : List (List Str)} {r c : Nat} {v : Str} {j : Nat}
    (h : r ≠ j) : (setCell values r c v).getD j [] = values.getD j [] :=
  getD_set_ne h _ _

theorem getD_setCell_self {values : List (List Str)} {r c : Nat} {v : Str}
    (h : r < values.length) : (setCell values r c v).getD r [] = (values.getD r []).set c v :=
  getD_set_self h

theorem headerOf_setCell {values : List (List Str)} {r c : Nat} {v : Str} (h : 1 ≤ r) :
    headerOf (setCell values r c v) = headerOf values := by
  unfold headerOf
  rw [headD_eq_getD, headD_eq_getD, getD_setCell_ne (by omega)]

theorem Rect_setCell {values : List (List Str)} {r c : Nat} {v : Str}
    (hr : 1 ≤ r) (h : Rect values) : Rect (setCell values r c v) := by
  intro j hj
  rw [length_setCell] at hj
  rw [getD_setCell_ne (by omega : r ≠ 0)]
  by_cases hjr : r = j
  · subst hjr
    rw [getD_setCell_self (by omega), List.length_set]
    exact h _ hj
  · rw [getD_setCell_ne hjr]
    exact h _ hj

/-! ## Membership characterization of the parsed rows -/

theorem mem_buildRows {i1 i2 i3 i4 : Nat} {rs : List (List Str)} {r : ColorsRow} :
    ∀ {i : Nat}, r ∈ buildRows i1 i2 i3 i4 i rs ↔
      ∃ j, j < rs.length ∧ trimStr ((rs.getD j []).getD i1 []) ≠ [] ∧
        r = mkRowAt i1 i2 i3 i4 (i + j + 1) (rs.getD j []) := by
  induction rs with
  | nil => intro i; simp [buildRows]
  | cons rr rest ih =>
    intro i
    rw [buildRows]
    by_cases h : trimStr (rr.getD i1 []) = []
    · rw [if_pos h, ih]
      constructor
      · rintro ⟨j, hj, hne, hr⟩
        refine ⟨j + 1, ?_, ?_, ?_⟩
        · simp only [List.length_cons]; omega
        · simpa using hne
        · have : i + 1 + j + 1 = i + (j + 1) + 1 := by omega
          rw [this] at hr
          simpa using hr
      · rintro ⟨j, hj, hne, hr⟩
        cases j with
        | zero => exact absurd h (by simpa using hne)
        | succ j =>
          refine ⟨j, ?_, ?_, ?_⟩
          · simp only [List.length_cons] at hj; omega
          · simpa using hne
          · have : i + (j + 1) + 1 = i + 1 + j + 1 := by omega
            rw [this] at hr
            simpa using hr
    · rw [if_neg h, List.mem_cons, ih]
      constructor
      · rintro (rfl | ⟨j, hj, hne, hr⟩)
        · refine ⟨0, by simp, by simpa using h, by simp⟩
        · refine ⟨j + 1, ?_, ?_, ?_⟩
          · simp only [List.length_cons]; omega
          · simpa using hne
          · have : i + 1 + j + 1 = i + (j + 1) + 1 := by omega
            rw [this] at hr
            simpa using hr
      · rintro ⟨j, hj, hne, hr⟩
        cases j with
        | zero => exact Or.inl (by simpa using hr)
        | succ j =>
          refine Or.inr ⟨j, ?_, ?_, ?_⟩
          · simp only [List.length_cons] at hj; omega
          · simpa using hne
          · have : i + (j + 1) + 1 = i + 1 + j + 1 := by omega
            rw [this] at hr
            simpa using hr

theorem loadFromSheet_eq {values : List (List Str)} {i1 i2 i3 i4 : Nat}
    (h2 : ¬ values.length < 2)
    (hi1 : indexOf? reqId (headerOf values) = some i1)
    (hi2 : indexOf? reqLabel (headerOf values) = some i2)
    (hi3 : indexOf? reqBackground (headerOf values) = some i3)
    (hi4 : indexOf? reqForeground (headerOf values) = some i4) :
    loadFromSheet values = .ok (sortRows (buildRows i1 i2 i3 i4 1 (values.drop 1))) := by
  unfold loadFromSheet
  rw [if_neg h2]
  simp only [hi1, hi2, hi3, hi4]

theorem loadFromSheet_ok_inv {values : List (List Str)} {rows : List ColorsRow}
    (h : loadFromSheet values = .ok rows) :
    ¬ values.length < 2 ∧ ∃ i1 i2 i3 i4,
      indexOf? reqId (headerOf values) = some i1 ∧
      indexOf? reqLabel (headerOf values) = some i2 ∧
      indexOf? reqBackground (headerOf values) = some i3 ∧
      indexOf? reqForeground (headerOf values) = some i4 ∧
      rows = sortRows (buildRows i1 i2 i3 i4 1 (values.drop 1)) := by
  unfold loadFromSheet at h
  by_cases h2 : values.length < 2
  · rw [if_pos h2] at h
    exact absurd h (by simp)
  · rw [if_neg h2] at h
    refine ⟨h2, ?_⟩
    split at h
    · rename_i i1 i2 i3 i4 hi1 hi2 hi3 hi4
      exact ⟨i1, i2, i3, i4, hi1, hi2, hi3, hi4, (Except.ok.injEq _ _ ▸ h).symm⟩
    · exact absurd h (by simp)

theorem mem_load_iff {values : List (List Str)} {rows : List ColorsRow}
    {i1 i2 i3 i4 : Nat} {r : ColorsRow}
    (h : loadFromSheet values = .ok rows)
    (hi1 : indexOf? reqId (headerOf values) = some i1)
    (hi2 : indexOf? reqLabel (headerOf values) = some i2)
    (hi3 : indexOf? reqBackground (headerOf values) = some i3)
    (hi4 : indexOf? reqForeground (headerOf values) = some i4) :
    r ∈ rows ↔ ∃ j, j + 1 < values.length ∧
      trimStr ((values.getD (j + 1) []).getD i1 []) ≠ [] ∧
      r = mkRowAt i1 i2 i3 i4 (j + 2) (values.getD (j + 1) []) := by
  obtain ⟨h2, j1, j2, j3, j4, hj1, hj2, hj3, hj4, hrows⟩ := loadFromSheet_ok_inv h
  rw [hj1] at hi1; rw [hj2] at hi2; rw [hj3] at hi3; rw [hj4] at hi4
  cases hi1; cases hi2; cases hi3; cases hi4
  subst hrows
  rw [mem_sortRows, mem_buildRows]
  constructor
  · rintro ⟨j, hj, hne, hr⟩
    rw [List.length_drop] at hj
    refine ⟨j, by omega, ?_, ?_⟩
    · rwa [getD_drop_one] at hne
    · rw [getD_drop_one] at hr
      have : 1 + j + 1 = j + 2 := by omega
      rwa [this] at hr
  · rintro ⟨j, hj, hne, hr⟩
    refine ⟨j, ?_, ?_, ?_⟩
    · rw [List.length_drop]; omega
    · rwa [getD_drop_one]
    · rw [getD_drop_one]
      have : 1 + j + 1 = j + 2 := by omega
      rwa [this]

/-- Unpack a parsed-row membership into facts about the sheet cells at
that row. -/
theorem mem_load_elim {values : List (List Str)} {rows : List ColorsRow}
    {i1 i2 i3 i4 : Nat} {r : ColorsRow}
    (h : loadFromSheet values = .ok rows)
    (hi1 : indexOf? reqId (headerOf values) = some i1)
    (hi2 : indexOf? reqLabel (headerOf values) = some i2)
    (hi3 : indexOf? reqBackground (headerOf values) = some i3)
    (hi4 : indexOf? reqForeground (headerOf values) = some i4)
    (hr : r ∈ rows) :
    2 ≤ r.rowIndex ∧ r.rowIndex ≤ values.length ∧
    trimStr ((values.getD (r.rowIndex - 1) []).getD i1 []) ≠ [] ∧
    r = mkRowAt i1 i2 i3 i4 r.rowIndex (values.getD (r.rowIndex - 1) []) := by
  rw [mem_load_iff h hi1 hi2 hi3 hi4] at hr
  obtain ⟨j, hj, hne, hr⟩ := hr
  have hri : r.rowIndex = j + 2 := by rw [hr]; rfl
  rw [hri]
  have h1 : j + 2 - 1 = j + 1 := by omega
  rw [h1]
  exact ⟨by omega, by omega, hne, hr⟩

/-! ## Branch equations for the stateful functions -/

theorem loadColorsRows_some {st : ScriptState} {rows : List ColorsRow}
    (h : st.cache = some rows) : loadColorsRows_ st = (.ok rows, st) := by
  simp [loadColorsRows_, h]

theorem loadColorsRows_none_ok {st : ScriptState} {rows : List ColorsRow}
    (h : st.cache = none) (hs : loadFromSheet st.sheet = .ok rows) :
    loadColorsRows_ st = (.ok rows, { st with cache := some rows }) := by
  simp [loadColorsRows_, h, hs]

theorem loadColorsRows_none_err {st : ScriptState} {e : ResolveError}
    (h : st.cache = none) (hs : loadFromSheet st.sheet = .error e) :
    loadColorsRows_ st = (.error e, st) := by
  simp [loadColorsRows_, h, hs]

theorem criticalSection_err {s : ScriptState} {n : Str} {e : ResolveError}
    (hs : loadFromSheet s.sheet = .error e) :
    criticalSection n s = (.error e, invalidateCache s) := by
  have : loadColorsRows_ (invalidateCache s) = (.error e, invalidateCache s) :=
    loadColorsRows_none_err rfl hs
  simp [criticalSection, this]

theorem criticalSection_existing {s : ScriptState} {n : Str} {rows : List ColorsRow}
    {q : ColorsRow}
    (hs : loadFromSheet s.sheet = .ok rows)
    (hf : rows.find? (fun r => normalizeLabel_ r.label = n) = some q) :
    criticalSection n s = (.ok (some q.colorId), ⟨s.sheet, some rows, s.locked⟩) := by
  have : loadColorsRows_ (invalidateCache s) = (.ok rows, ⟨s.sheet, some rows, s.locked⟩) :=
    loadColorsRows_none_ok rfl hs
  simp [criticalSection, this, hf]

theorem criticalSection_noCapacity {s : ScriptState} {n : Str} {rows : List ColorsRow}
    (hs : loadFromSheet s.sheet = .ok rows)
    (hf : rows.find? (fun r => normalizeLabel_ r.label = n) = none)
    (he : rows.find? (fun r => r.label = []) = none) :
    criticalSection n s = (.error (.noCapacity n), ⟨s.sheet, some rows, s.locked⟩) := by
  have : loadColorsRows_ (invalidateCache s) = (.ok rows, ⟨s.sheet, some rows, s.locked⟩) :=
    loadColorsRows_none_ok rfl hs
  simp [criticalSection, this, hf, he]

theorem criticalSection_alloc {s : ScriptState} {n : Str} {rows : List ColorsRow}
    {e : ColorsRow} {ci : Nat}
    (hs : loadFromSheet s.sheet = .ok rows)
    (hf : rows.find? (fun r => normalizeLabel_ r.label = n) = none)
    (he : rows.find? (fun r => r.label = []) = some e)
    (hidx : indexOf? reqLabel (headerOf s.sheet) = some ci) :
    criticalSection n s =
      (.ok (some e.colorId), ⟨setCell s.sheet (e.rowIndex - 1) ci n, none, s.locked⟩) := by
  have hld : loadColorsRows_ ⟨s.sheet, none, s.locked⟩ = (.ok rows, ⟨s.sheet, some rows, s.locked⟩) :=
    loadColorsRows_none_ok rfl hs
  simp [criticalSection, invalidateCache, hld, hf, he, hidx]

theorem slowPath_locked {st : ScriptState} {n : Str} (h : st.locked = true) :
    slowPath n st = (.error .lockTimeout, { st with locked := false }) := by
  simp [slowPath, h]

theorem slowPath_unlocked {st : ScriptState} {n : Str} (h : st.locked = false) :
    slowPath n st =
      ((criticalSection n { st with locked := true }).1,
        { (criticalSection n { st with locked := true }).2 with locked := false }) := by
  simp [slowPath, h]

theorem slowPath_existing {s : ScriptState} {n : Str} {rows : List ColorsRow} {q : ColorsRow}
    (hlk : s.locked = false)
    (hs : loadFromSheet s.sheet = .ok rows)
    (hf : rows.find? (fun r => normalizeLabel_ r.label = n) = some q) :
    slowPath n s = (.ok (some q.colorId), ⟨s.sheet, some rows, false⟩) := by
  rw [slowPath_unlocked hlk, criticalSection_existing (s := { s with locked := true }) hs hf]

theorem slowPath_noCapacity {s : ScriptState} {n : Str} {rows : List ColorsRow}
    (hlk : s.locked = false)
    (hs : loadFromSheet s.sheet = .ok rows)
    (hfm : rows.find? (fun r => normalizeLabel_ r.label = n) = none)
    (hfe : rows.find? (fun r => r.label = []) = none) :
    slowPath n s = (.error (.noCapacity n), ⟨s.sheet, some rows, false⟩) := by
  rw [slowPath_unlocked hlk,
    criticalSection_noCapacity (s := { s with locked := true }) hs hfm hfe]

theorem slowPath_alloc {s : ScriptState} {n : Str} {rows : List ColorsRow}
    {e0 : ColorsRow} {ci : Nat}
    (hlk : s.locked = false)
    (hs : loadFromSheet s.sheet = .ok rows)
    (hfm : rows.find? (fun r => normalizeLabel_ r.label = n) = none)
    (he : rows.find? (fun r => r.label = []) = some e0)
    (hidx : indexOf? reqLabel (headerOf s.sheet) = some ci) :
    slowPath n s =
      (.ok (some e0.colorId), ⟨setCell s.sheet (e0.rowIndex - 1) ci n, none, false⟩) := by
  rw [slowPath_unlocked hlk,
    criticalSection_alloc (s := { s with locked := true }) hs hfm he hidx]

theorem resolve_none (st : ScriptState) :
    resolveOrAssignColorIdByLabel_ none st = (.ok none, st) := rfl

theorem resolve_norm_empty {l : Str} (st : ScriptState) (h : normalizeLabel_ l = []) :
    resolveOrAssignColorIdByLabel_ (some l) st = (.ok none, st) := by
  by_cases hl : l = []
  · simp [resolveOrAssignColorIdByLabel_, hl]
  · simp [resolveOrAssignColorIdByLabel_, hl, h]

theorem resolve_fast {l : Str} {st st1 : ScriptState} {rows : List ColorsRow} {r0 : ColorsRow}
    (hn : normalizeLabel_ l ≠ [])
    (hload : loadColorsRows_ st = (.ok rows, st1))
    (hf : rows.find? (fun r => normalizeLabel_ r.label = normalizeLabel_ l) = some r0) :
    resolveOrAssignColorIdByLabel_ (some l) st = (.ok (some r0.colorId), st1) := by
  have hl : l ≠ [] := by
    intro h
    rw [h] at hn
    exact hn rfl
  simp [resolveOrAssignColorIdByLabel_, hl, hn, hload, hf]

theorem resolve_slow {l : Str} {st st1 : ScriptState} {rows : List ColorsRow}
    (hn : normalizeLabel_ l ≠ [])
    (hload : loadColorsRows_ st = (.ok rows, st1))
    (hf : rows.find? (fun r => normalizeLabel_ r.label = normalizeLabel_ l) = none) :
    resolveOrAssignColorIdByLabel_ (some l) st = slowPath (normalizeLabel_ l) st1 := by
  have hl : l ≠ [] := by
    intro h
    rw [h] at hn
    exact hn rfl
  simp [resolveOrAssignColorIdByLabel_, hl, hn, hload, hf]

theorem resolve_load_err {l : Str} {st st1 : ScriptState} {e : ResolveError}
    (hn : normalizeLabel_ l ≠ [])
    (hload : loadColorsRows_ st = (.error e, st1)) :
    resolveOrAssignColorIdByLabel_ (some l) st = (.error e, st1) := by
  have hl : l ≠ [] := by
    intro h
    rw [h] at hn
    exact hn rfl
  simp [resolveOrAssignColorIdByLabel_, hl, hn, hload]

theorem criticalSection_missingCol {s : ScriptState} {n : Str} {rows : List ColorsRow}
    {e : ColorsRow}
    (hs : loadFromSheet s.sheet = .ok rows)
    (hf : rows.find? (fun r => normalizeLabel_ r.label = n) = none)
    (he : rows.find? (fun r => r.label = []) = some e)
    (hidx : indexOf? reqLabel (headerOf s.sheet) = none) :
    criticalSection n s = (.error .missingLabelColumn, ⟨s.sheet, some rows, s.locked⟩) := by
  have hld : loadColorsRows_ (invalidateCache s) = (.ok rows, ⟨s.sheet, some rows, s.locked⟩) :=
    loadColorsRows_none_ok rfl hs
  simp [criticalSection, hld, hf, he, hidx]

/-! ## Case analysis of a whole `slowPath` and a whole resolver call -/

theorem slowPath_cases (n : Str) (st : ScriptState) :
    (slowPath n st).2.sheet = st.sheet ∨
    ∃ rows e0 ci,
      loadFromSheet st.sheet = .ok rows ∧
      (∀ r ∈ rows, ¬ normalizeLabel_ r.label = n) ∧
      e0 ∈ rows ∧ e0.label = [] ∧
      indexOf? reqLabel (headerOf st.sheet) = some ci ∧
      slowPath n st = (.ok (some e0.colorId), ⟨setCell st.sheet (e0.rowIndex - 1) ci n, none, false⟩) := by
  cases hlk : st.locked with
  | true =>
    left
    rw [slowPath_locked hlk]
  | false =>
    rw [slowPath_unlocked hlk]
    cases hs : loadFromSheet st.sheet with
    | error e =>
      left
      rw [criticalSection_err (s := { st with locked := true }) hs]
      rfl
    | ok rows =>
      cases hf : rows.find? (fun r => normalizeLabel_ r.label = n) with
      | some r0 =>
        left
        rw [criticalSection_existing (s := { st with locked := true }) hs hf]
      | none =>
        cases he : rows.find? (fun r => r.label = []) with
        | none =>
          left
          rw [criticalSection_noCapacity (s := { st with locked := true }) hs hf he]
        | some e0 =>
          cases hidx : indexOf? reqLabel (headerOf st.sheet) with
          | none =>
            left
            rw [criticalSection_missingCol (s := { st with locked := true }) hs hf he hidx]
          | some ci =>
            right
            refine ⟨rows, e0, ci, rfl, ?_, List.mem_of_find?_eq_some he, ?_, rfl, ?_⟩
            · intro r hr
              simpa using List.find?_eq_none.mp hf r hr
            · simpa using List.find?_some he
            · rw [criticalSection_alloc (s := { st with locked := true }) hs hf he hidx]

theorem resolve_sheet_cases (lab : Option Str) (st : ScriptState) :
    (resolveOrAssignColorIdByLabel_ lab st).2.sheet = st.sheet ∨
    ∃ l rows e0 ci, lab = some l ∧ normalizeLabel_ l ≠ [] ∧
      loadFromSheet st.sheet = .ok rows ∧
      (∀ r ∈ rows, ¬ normalizeLabel_ r.label = normalizeLabel_ l) ∧
      e0 ∈ rows ∧ e0.label = [] ∧
      indexOf? reqLabel (headerOf st.sheet) = some ci ∧
      resolveOrAssignColorIdByLabel_ lab st =
        (.ok (some e0.colorId),
          ⟨setCell st.sheet (e0.rowIndex - 1) ci (normalizeLabel_ l), none, false⟩) := by
  cases lab with
  | none => left; rfl
  | some l =>
    by_cases hn : normalizeLabel_ l = []
    · left
      rw [resolve_norm_empty st hn]
    · cases hc : st.cache with
      | some crows =>
        have hld := loadColorsRows_some hc
        cases hf : crows.find? (fun r => normalizeLabel_ r.label = normalizeLabel_ l) with
        | some r0 =>
          left
          rw [resolve_fast hn hld hf]
        | none =>
          rw [resolve_slow hn hld hf]
          rcases slowPath_cases (normalizeLabel_ l) st with h | ⟨rows, e0, ci, h1, h2, h3, h4, h5, h6⟩
          · exact Or.inl h
          · exact Or.inr ⟨l, rows, e0, ci, rfl, hn, h1, h2, h3, h4, h5, h6⟩
      | none =>
        cases hs : loadFromSheet st.sheet with
        | error e =>
          left
          rw [resolve_load_err hn (loadColorsRows_none_err hc hs)]
        | ok rows =>
          have hld := loadColorsRows_none_ok hc hs
          cases hf : rows.find? (fun r => normalizeLabel_ r.label = normalizeLabel_ l) with
          | some r0 =>
            left
            rw [resolve_fast hn hld hf]
          | none =>
            rw [resolve_slow hn hld hf]
            rcases slowPath_cases (normalizeLabel_ l) { st with cache := some rows } with
              h | ⟨rows', e0, ci, h1, h2, h3, h4, h5, h6⟩
            · exact Or.inl h
            · exact Or.inr ⟨l, rows', e0, ci, rfl, hn, hs.symm.trans h1, h2, h3, h4, h5, h6⟩

theorem slowPath_ok_elim {n : Str} {st st' : ScriptState} {S : Str}
    (h : slowPath n st = (.ok (some S), st')) :
    (∃ rows r0, loadFromSheet st.sheet = .ok rows ∧ r0 ∈ rows ∧
      normalizeLabel_ r0.label = n ∧ S = r0.colorId ∧ st' = ⟨st.sheet, some rows, false⟩)
  ∨ (∃ rows e0 ci, loadFromSheet st.sheet = .ok rows ∧
      (∀ r ∈ rows, ¬ normalizeLabel_ r.label = n) ∧
      e0 ∈ rows ∧ e0.label = [] ∧ S = e0.colorId ∧
      indexOf? reqLabel (headerOf st.sheet) = some ci ∧
      st' = ⟨setCell st.sheet (e0.rowIndex - 1) ci n, none, false⟩) := by
  cases hlk : st.locked with
  | true =>
    rw [slowPath_locked hlk] at h
    exact absurd h (by simp)
  | false =>
    rw [slowPath_unlocked hlk] at h
    cases hs : loadFromSheet st.sheet with
    | error e =>
      rw [criticalSection_err (s := { st with locked := true }) hs] at h
      exact absurd h (by simp)
    | ok rows =>
      cases hf : rows.find? (fun r => normalizeLabel_ r.label = n) with
      | some r0 =>
        rw [criticalSection_existing (s := { st with locked := true }) hs hf] at h
        simp only [Prod.mk.injEq, Except.ok.injEq, Option.some.injEq] at h
        refine Or.inl ⟨rows, r0, rfl, List.mem_of_find?_eq_some hf, ?_, h.1.symm, h.2.symm⟩
        simpa using List.find?_some hf
      | none =>
        cases he : rows.find? (fun r => r.label = []) with
        | none =>
          rw [criticalSection_noCapacity (s := { st with locked := true }) hs hf he] at h
          exact absurd h (by simp)
        | some e0 =>
          cases hidx : indexOf? reqLabel (headerOf st.sheet) with
          | none =>
            rw [criticalSection_missingCol (s := { st with locked := true }) hs hf he hidx] at h
            exact absurd h (by simp)
          | some ci =>
            rw [criticalSection_alloc (s := { st with locked := true }) hs hf he hidx] at h
            simp only [Prod.mk.injEq, Except.ok.injEq, Option.some.injEq] at h
            refine Or.inr ⟨rows, e0, ci, rfl, ?_, List.mem_of_find?_eq_some he, ?_,
              h.1.symm, rfl, h.2.symm⟩
            · intro r hr
              simpa using List.find?_eq_none.mp hf r hr
            · simpa using List.find?_some he

theorem resolve_ok_elim {l : Str} {st st' : ScriptState} {S : Str}
    (h : resolveOrAssignColorIdByLabel_ (some l) st = (.ok (some S), st')) :
    normalizeLabel_ l ≠ [] ∧
    ( (∃ crows r0, st.cache = some crows ∧ r0 ∈ crows ∧
        normalizeLabel_ r0.label = normalizeLabel_ l ∧ S = r0.colorId ∧ st' = st)
    ∨ (∃ rows r0, st.cache = none ∧ loadFromSheet st.sheet = .ok rows ∧ r0 ∈ rows ∧
        normalizeLabel_ r0.label = normalizeLabel_ l ∧ S = r0.colorId ∧
        st' = { st with cache := some rows })
    ∨ (∃ rows r0, loadFromSheet st.sheet = .ok rows ∧ r0 ∈ rows ∧
        normalizeLabel_ r0.label = normalizeLabel_ l ∧ S = r0.colorId ∧
        st' = ⟨st.sheet, some rows, false⟩)
    ∨ (∃ rows e0 ci, loadFromSheet st.sheet = .ok rows ∧
        (∀ r ∈ rows, ¬ normalizeLabel_ r.label = normalizeLabel_ l) ∧
        e0 ∈ rows ∧ e0.label = [] ∧ S = e0.colorId ∧
        indexOf? reqLabel (headerOf st.sheet) = some ci ∧
        st' = ⟨setCell st.sheet (e0.rowIndex - 1) ci (normalizeLabel_ l), none, false⟩) ) := by
  by_cases hn : normalizeLabel_ l = []
  · rw [resolve_norm_empty st hn] at h
    exact absurd h (by simp)
  · refine ⟨hn, ?_⟩
    cases hc : st.cache with
    | some crows =>
      have hld := loadColorsRows_some hc
      cases hf : crows.find? (fun r => normalizeLabel_ r.label = normalizeLabel_ l) with
      | some r0 =>
        rw [resolve_fast hn hld hf] at h
        simp only [Prod.mk.injEq, Except.ok.injEq, Option.some.injEq] at h
        refine Or.inl ⟨crows, r0, rfl, List.mem_of_find?_eq_some hf, ?_, h.1.symm, h.2.symm⟩
        simpa using List.find?_some hf
      | none =>
        rw [resolve_slow hn hld hf] at h
        rcases slowPath_ok_elim h with h' | h'
        · exact Or.inr (Or.inr (Or.inl h'))
        · exact Or.inr (Or.inr (Or.inr h'))
    | none =>
      cases hs : loadFromSheet st.sheet with
      | error e =>
        rw [resolve_load_err hn (loadColorsRows_none_err hc hs)] at h
        exact absurd h (by simp)
      | ok rows =>
        have hld := loadColorsRows_none_ok hc hs
        cases hf : rows.find? (fun r => normalizeLabel_ r.label = normalizeLabel_ l) with
        | some r0 =>
          rw [resolve_fast hn hld hf] at h
          simp only [Prod.mk.injEq, Except.ok.injEq, Option.some.injEq] at h
          refine Or.inr (Or.inl ⟨rows, r0, rfl, rfl, List.mem_of_find?_eq_some hf, ?_,
            h.1.symm, h.2.symm⟩)
          simpa using List.find?_some hf
        | none =>
          rw [resolve_slow hn hld hf] at h
          rcases slowPath_ok_elim h with
            ⟨rows1, r0, hq1, hq2, hq3, hq4, hq5⟩ |
            ⟨rows1, e0, ci, hq1, hq2, hq3, hq4, hq5, hq6, hq7⟩
          · exact Or.inr (Or.inr (Or.inl ⟨rows1, r0, hs.symm.trans hq1, hq2, hq3, hq4, hq5⟩))
          · exact Or.inr (Or.inr (Or.inr ⟨rows1, e0, ci, hs.symm.trans hq1, hq2, hq3, hq4,
              hq5, hq6, hq7⟩))

/-- A successful resolution always returns the `colorId` of some row of
the parsed sheet, and that row either carries a matching normalized
label or was an empty slot. -/
theorem resolve_ok_match_row {l : Str} {st st' : ScriptState} {S : Str} {rows : List ColorsRow}
    (h : resolveOrAssignColorIdByLabel_ (some l) st = (.ok (some S), st'))
    (hload : loadFromSheet st.sheet = .ok rows)
    (hcache : st.cache = none ∨ st.cache = some rows) :
    (∃ r ∈ rows, normalizeLabel_ r.label = normalizeLabel_ l ∧ S = r.colorId)
  ∨ (∃ r ∈ rows, r.label = [] ∧ S = r.colorId) := by
  obtain ⟨hn, h4⟩ := resolve_ok_elim h
  rcases h4 with ⟨crows, r0, hc, hm, hl, hS, _⟩ | ⟨rows0, r0, _, hs, hm, hl, hS, _⟩ |
    ⟨rows0, r0, hs, hm, hl, hS, _⟩ | ⟨rows0, e0, ci, hs, _, hm, hl, hS, _, _⟩
  · rcases hcache with hcn | hcs
    · rw [hcn] at hc
      exact absurd hc (by simp)
    · rw [hcs] at hc
      injection hc with hc
      subst hc
      exact Or.inl ⟨r0, hm, hl, hS⟩
  · rw [hload] at hs
    injection hs with hs
    subst hs
    exact Or.inl ⟨r0, hm, hl, hS⟩
  · rw [hload] at hs
    injection hs with hs
    subst hs
    exact Or.inl ⟨r0, hm, hl, hS⟩
  · rw [hload] at hs
    injection hs with hs
    subst hs
    exact Or.inr ⟨e0, hm, hl, hS⟩

theorem cellAt_setCell_untouched {values : List (List Str)} {r c : Nat} {v : Str} {i j : Nat}
    (h : ¬ (r = i ∧ c = j)) :
    cellAt (setCell values r c v) i j = cellAt values i j := by
  unfold cellAt setCell
  by_cases hr : r = i
  · subst hr
    have hc : c ≠ j := fun hcj => h ⟨rfl, hcj⟩
    by_cases hlen : r < values.length
    · rw [getD_set_self hlen, getD_set_ne hc]
    · rw [List.set_eq_of_length_le (by omega)]
  · rw [getD_set_ne hr]

/-- Restate `labelsDupFree` as the at-most-one-row-per-normalized-label
property of the parsed rows. -/
theorem labelsDupFree_iff {values : List (List Str)} {rows : List ColorsRow}
    (h : loadFromSheet values = .ok rows) :
    labelsDupFree values = true ↔
      ∀ r ∈ rows, ∀ s ∈ rows, r.label ≠ [] → s.label ≠ [] →
        normalizeLabel_ r.label = normalizeLabel_ s.label → r = s := by
  unfold labelsDupFree
  rw [h]
  simp only [List.all_eq_true, decide_eq_true_eq]
  constructor
  · intro H r hr s hs h1 h2 h3
    rcases H r hr s hs with h' | h' | h' | h'
    · exact absurd h' h1
    · exact absurd h' h2
    · exact absurd h3 h'
    · exact h'
  · intro H r hr s hs
    by_cases h1 : r.label = []
    · exact Or.inl h1
    by_cases h2 : s.label = []
    · exact Or.inr (Or.inl h2)
    by_cases h3 : normalizeLabel_ r.label = normalizeLabel_ s.label
    · exact Or.inr (Or.inr (Or.inr (H r hr s hs h1 h2 h3)))
    · exact Or.inr (Or.inr (Or.inl h3))

/-! ## Claim theorems -/

/-- C8: a call with an absent label, an empty label, or a label that
normalizes to the empty string (whitespace only, or a lone marker)
returns no slot, raises no error, and leaves the cache, the lock and
the table — the whole script state — untouched. -/
theorem C8_empty_label_skips (st : ScriptState) (lab : Option Str)
    (h : lab = none ∨ ∃ l, lab = some l ∧ (l = [] ∨ normalizeLabel_ l = [])) :
    resolveOrAssignColorIdByLabel_ lab st = (.ok none, st) := by
  rcases h with rfl | ⟨l, rfl, h⟩
  · rfl
  · rcases h with rfl | h
    · exact resolve_norm_empty st rfl
    · exact resolve_norm_empty st h

theorem C8_witness :
    resolveOrAssignColorIdByLabel_ (some (" # ".toList)) exStTwoEmpty = (.ok none, exStTwoEmpty) :=
  C8_empty_label_skips exStTwoEmpty (some (" # ".toList))
    (Or.inr ⟨" # ".toList, rfl, Or.inr (by decide)⟩)

/-- C3: if exactly one row of the sheet is bound to the normalized label
`L` (with slot `S`), then any raw spelling that normalizes to `L`
resolves to `S` and leaves the table unchanged, both on a cache hit
(cache holds the sheet snapshot) and on a cache miss. -/
theorem C3_idempotent_resolution (st : ScriptState) (raw L S : Str) (rows : List ColorsRow)
    (hload : loadFromSheet st.sheet = .ok rows)
    (hcache : st.cache = none ∨ st.cache = some rows)
    (hnorm : normalizeLabel_ raw = L) (hL : L ≠ [])
    (hex : ∃ r ∈ rows, normalizeLabel_ r.label = L ∧ r.colorId = S)
    (huniq : ∀ r ∈ rows, normalizeLabel_ r.label = L → r.colorId = S) :
    ∃ st', resolveOrAssignColorIdByLabel_ (some raw) st = (.ok (some S), st') ∧
      st'.sheet = st.sheet := by
  subst hnorm
  obtain ⟨r, hrmem, hrlab, hrS⟩ := hex
  have hsome : (rows.find? (fun r => normalizeLabel_ r.label = normalizeLabel_ raw)).isSome :=
    List.find?_isSome.mpr ⟨r, hrmem, by simpa using hrlab⟩
  obtain ⟨r0, hr0⟩ := Option.isSome_iff_exists.mp hsome
  have hS : r0.colorId = S :=
    huniq r0 (List.mem_of_find?_eq_some hr0) (by simpa using List.find?_some hr0)
  rcases hcache with hc | hc
  · refine ⟨{ st with cache := some rows }, ?_, rfl⟩
    rw [resolve_fast hL (loadColorsRows_none_ok hc hload) hr0, hS]
  · refine ⟨st, ?_, rfl⟩
    rw [resolve_fast hL (loadColorsRows_some hc) hr0, hS]

theorem C3_witness :
    ∃ st', resolveOrAssignColorIdByLabel_ (some (" #Acme ".toList)) exStAcme =
      (.ok (some ("1".toList)), st') ∧ st'.sheet = exStAcme.sheet :=
  C3_idempotent_resolution exStAcme (" #Acme ".toList) ("Acme".toList) ("1".toList) exRowsAcme
    rfl (Or.inl rfl) (by decide) (by decide)
    ⟨⟨2, "1".toList, "Acme".toList, "b".toList, "f".toList⟩, by decide, by decide, by decide⟩
    (by decide)

/-- C5: on a table with no empty slot and no row matching the label,
resolution fails with the no-capacity error, no cell write is attempted
(table unchanged), and the lock is released. -/
theorem C5_capacity_exhaustion (st : ScriptState) (raw n : Str) (rows : List ColorsRow)
    (hlk : st.locked = false)
    (hload : loadFromSheet st.sheet = .ok rows)
    (hcache : st.cache = none ∨
      ∃ crows, st.cache = some crows ∧ ∀ r ∈ crows, normalizeLabel_ r.label ≠ n)
    (hnorm : normalizeLabel_ raw = n) (hn : n ≠ [])
    (hnomatch : ∀ r ∈ rows, normalizeLabel_ r.label ≠ n)
    (hfull : ∀ r ∈ rows, r.label ≠ []) :
    resolveOrAssignColorIdByLabel_ (some raw) st =
      (.error (.noCapacity n), ⟨st.sheet, some rows, false⟩) := by
  subst hnorm
  have hfm : rows.find? (fun r => normalizeLabel_ r.label = normalizeLabel_ raw) = none :=
    List.find?_eq_none.mpr (fun r hr => by simpa using hnomatch r hr)
  have hfe : rows.find? (fun r => r.label = []) = none :=
    List.find?_eq_none.mpr (fun r hr => by simpa using hfull r hr)
  rcases hcache with hc | ⟨crows, hc, hcno⟩
  · exact (resolve_slow hn (loadColorsRows_none_ok hc hload) hfm).trans
      (slowPath_noCapacity (s := { st with cache := some rows }) hlk hload hfm hfe)
  · have hfmc : crows.find? (fun r => normalizeLabel_ r.label = normalizeLabel_ raw) = none :=
      List.find?_eq_none.mpr (fun r hr => by simpa using hcno r hr)
    exact (resolve_slow hn (loadColorsRows_some hc) hfmc).trans
      (slowPath_noCapacity hlk hload hfm hfe)

theorem C5_witness :
    resolveOrAssignColorIdByLabel_ (some ("fresh".toList)) exStFull =
      (.error (.noCapacity ("fresh".toList)), ⟨exStFull.sheet, some exRowsFull, false⟩) :=
  C5_capacity_exhaustion exStFull ("fresh".toList) ("fresh".toList) exRowsFull
    rfl rfl (Or.inl rfl) (by decide) (by decide) (by decide) (by decide)

/-- C6: on the slow path the row set is re-read from the sheet, not from
the (arbitrary, non-matching) cache: when the sheet has a matching row
but the cached snapshot does not, the call still returns the matching
sheet row's slot and writes nothing. -/
theorem C6_reread_under_lock (st : ScriptState) (raw n : Str)
    (crows rows : List ColorsRow) (r0 : ColorsRow)
    (hlk : st.locked = false)
    (hc : st.cache = some crows)
    (hcno : ∀ r ∈ crows, normalizeLabel_ r.label ≠ n)
    (hnorm : normalizeLabel_ raw = n) (hn : n ≠ [])
    (hload : loadFromSheet st.sheet = .ok rows)
    (hfind : rows.find? (fun r => normalizeLabel_ r.label = n) = some r0) :
    resolveOrAssignColorIdByLabel_ (some raw) st =
      (.ok (some r0.colorId), ⟨st.sheet, some rows, false⟩) := by
  subst hnorm
  have hfmc : crows.find? (fun r => normalizeLabel_ r.label = normalizeLabel_ raw) = none :=
    List.find?_eq_none.mpr (fun r hr => by simpa using hcno r hr)
  exact (resolve_slow hn (loadColorsRows_some hc) hfmc).trans
    (slowPath_existing hlk hload hfind)

theorem C6_witness :
    resolveOrAssignColorIdByLabel_ (some ("Acme".toList))
        ⟨exSheetAcme, some exRowsTwoEmpty, false⟩ =
      (.ok (some ("1".toList)),
        ⟨exSheetAcme, some exRowsAcme, false⟩) := by
  have h := C6_reread_under_lock ⟨exSheetAcme, some exRowsTwoEmpty, false⟩
    ("Acme".toList) ("Acme".toList) exRowsTwoEmpty exRowsAcme
    ⟨2, "1".toList, "Acme".toList, "b".toList, "f".toList⟩
    rfl rfl (by decide) (by decide) (by decide) rfl (by decide)
  exact h

/-- C7: every full sheet read (a) fails with the bad-header
configuration error when any of the four required column names is
missing from the trimmed header, (b) succeeds whenever all four names
are present, wherever they sit (lookup is by name, not position), and
(c) skips exactly the data rows whose slot-identifier cell is blank:
every parsed row has a non-blank `colorId`, no parsed row comes from a
blank-id sheet row, and every non-blank-id sheet row is parsed. -/
theorem C7_header_validation_and_blank_rows :
    (∀ values : List (List Str), ¬ values.length < 2 →
      (reqId ∉ headerOf values ∨ reqLabel ∉ headerOf values ∨
       reqBackground ∉ headerOf values ∨ reqForeground ∉ headerOf values) →
      loadFromSheet values = .error .badHeader)
    ∧
    (∀ values : List (List Str), ¬ values.length < 2 →
      reqId ∈ headerOf values → reqLabel ∈ headerOf values →
      reqBackground ∈ headerOf values → reqForeground ∈ headerOf values →
      ∃ rows, loadFromSheet values = .ok rows)
    ∧
    (∀ (values : List (List Str)) (rows : List ColorsRow) (i1 : Nat),
      loadFromSheet values = .ok rows →
      indexOf? reqId (headerOf values) = some i1 →
      (∀ r ∈ rows, r.colorId ≠ []) ∧
      ∀ j, j + 1 < values.length →
        ((trimStr ((values.getD (j + 1) []).getD i1 []) = [] →
            ∀ r ∈ rows, r.rowIndex ≠ j + 2) ∧
         (trimStr ((values.getD (j + 1) []).getD i1 []) ≠ [] →
            ∃ r ∈ rows, r.rowIndex = j + 2 ∧
              r.colorId = trimStr ((values.getD (j + 1) []).getD i1 [])))) := by
  refine ⟨?_, ?_, ?_⟩
  · intro values h2 hmem
    unfold loadFromSheet
    rw [if_neg h2]
    cases hA : indexOf? reqId (headerOf values) with
    | none => simp
    | some iA =>
      cases hB : indexOf? reqLabel (headerOf values) with
      | none => simp
      | some iB =>
        cases hC : indexOf? reqBackground (headerOf values) with
        | none => simp
        | some iC =>
          cases hD : indexOf? reqForeground (headerOf values) with
          | none => simp
          | some iD =>
            exfalso
            rcases hmem with hm | hm | hm | hm
            · rw [indexOf?_eq_none_of_not_mem hm] at hA
              exact absurd hA (by simp)
            · rw [indexOf?_eq_none_of_not_mem hm] at hB
              exact absurd hB (by simp)
            · rw [indexOf?_eq_none_of_not_mem hm] at hC
              exact absurd hC (by simp)
            · rw [indexOf?_eq_none_of_not_mem hm] at hD
              exact absurd hD (by simp)
  · intro values h2 m1 m2 m3 m4
    obtain ⟨i1, hi1⟩ := Option.isSome_iff_exists.mp (indexOf?_isSome_of_mem m1)
    obtain ⟨i2, hi2⟩ := Option.isSome_iff_exists.mp (indexOf?_isSome_of_mem m2)
    obtain ⟨i3, hi3⟩ := Option.isSome_iff_exists.mp (indexOf?_isSome_of_mem m3)
    obtain ⟨i4, hi4⟩ := Option.isSome_iff_exists.mp (indexOf?_isSome_of_mem m4)
    exact ⟨_, loadFromSheet_eq h2 hi1 hi2 hi3 hi4⟩
  · intro values rows i1 hload hi1
    obtain ⟨h2, j1, j2, j3, j4, hj1, hj2, hj3, hj4, hrows⟩ := loadFromSheet_ok_inv hload
    have hi : i1 = j1 := Option.some.inj (hi1.symm.trans hj1)
    subst hi
    constructor
    · intro r hr
      obtain ⟨hge, hle, hne, hrEq⟩ := mem_load_elim hload hj1 hj2 hj3 hj4 hr
      have hcid : r.colorId = trimStr ((values.getD (r.rowIndex - 1) []).getD i1 []) := by
        rw [hrEq]
        rfl
      rw [hcid]
      exact hne
    · intro j hj
      constructor
      · intro hblank r hr hri
        obtain ⟨hge, hle, hne, hrEq⟩ := mem_load_elim hload hj1 hj2 hj3 hj4 hr
        rw [hri] at hne
        have : j + 2 - 1 = j + 1 := by omega
        rw [this] at hne
        exact hne hblank
      · intro hnonblank
        refine ⟨mkRowAt i1 j2 j3 j4 (j + 2) (values.getD (j + 1) []), ?_, rfl, rfl⟩
        rw [mem_load_iff hload hj1 hj2 hj3 hj4]
        exact ⟨j, hj, hnonblank, rfl⟩

theorem C7_witness :
    loadFromSheet exSheetNoLabelCol = .error .badHeader ∧
    (∃ rows, loadFromSheet exSheetPermuted = .ok rows) ∧
    (∀ r ∈ exRowsBlankId, r.rowIndex ≠ 0 + 2) :=
  ⟨C7_header_validation_and_blank_rows.1 exSheetNoLabelCol (by decide)
      (Or.inr (Or.inl (by decide))),
   C7_header_validation_and_blank_rows.2.1 exSheetPermuted (by decide)
      (by decide) (by decide) (by decide) (by decide),
   ((C7_header_validation_and_blank_rows.2.2 exSheetBlankId exRowsBlankId 0 rfl rfl).2
      0 (by decide)).1 (by decide)⟩

/-- A single resolver call can change a sheet cell only if the cell's
trimmed content was empty beforehand: the only write targets the label
cell of a row whose parsed label is empty. -/
theorem resolve_cell_preserve (lab : Option Str) (st : ScriptState) (i c : Nat)
    (h : trimStr (cellAt st.sheet i c) ≠ []) :
    cellAt ((resolveOrAssignColorIdByLabel_ lab st).2).sheet i c = cellAt st.sheet i c := by
  rcases resolve_sheet_cases lab st with hsheet |
    ⟨l, rows, e0, ci, hlab, hn, hload, hnom, hmem, hlabE, hidx, hres⟩
  · rw [hsheet]
  · have hsheet' : ((resolveOrAssignColorIdByLabel_ lab st).2).sheet =
        setCell st.sheet (e0.rowIndex - 1) ci (normalizeLabel_ l) := by rw [hres]
    rw [hsheet']
    by_cases hij : e0.rowIndex - 1 = i ∧ ci = c
    · exfalso
      obtain ⟨hi, hc⟩ := hij
      obtain ⟨h2, i1, i2, i3, i4, hi1, hi2, hi3, hi4, _⟩ := loadFromSheet_ok_inv hload
      have hci : ci = i2 := Option.some.inj (hidx.symm.trans hi2)
      obtain ⟨hge, hle, hneId, hrEq⟩ := mem_load_elim hload hi1 hi2 hi3 hi4 hmem
      have hlabel : e0.label = trimStr ((st.sheet.getD (e0.rowIndex - 1) []).getD i2 []) := by
        rw [hrEq]
        rfl
      apply h
      rw [← hi, ← hc, hci]
      unfold cellAt
      rw [← hlabel]
      exact hlabE
    · exact cellAt_setCell_untouched (by tauto)

/-- C2: a label cell transitions only from empty to non-empty — over
any sequence of resolver calls, every cell whose trimmed content is
non-empty keeps exactly its value (never cleared, never overwritten). -/
theorem C2_no_overwrite (calls : List (Option Str)) (st : ScriptState)
    (i c : Nat) (h : trimStr (cellAt st.sheet i c) ≠ []) :
    cellAt (runCalls calls st).sheet i c = cellAt st.sheet i c := by
  induction calls generalizing st with
  | nil => rfl
  | cons lab rest ih =>
    have h1 := resolve_cell_preserve lab st i c h
    have h2 : trimStr (cellAt ((resolveOrAssignColorIdByLabel_ lab st).2).sheet i c) ≠ [] := by
      rw [h1]
      exact h
    have hrun : runCalls (lab :: rest) st =
        runCalls rest ((resolveOrAssignColorIdByLabel_ lab st).2) := rfl
    rw [hrun, ih _ h2, h1]

theorem C2_witness :
    cellAt (runCalls [some ("zed".toList), some ("Acme".toList), some ("qux".toList)]
      exStAcme).sheet 1 1 = cellAt exStAcme.sheet 1 1 :=
  C2_no_overwrite [some ("zed".toList), some ("Acme".toList), some ("qux".toList)]
    exStAcme 1 1 (by decide)

/-- C4: with numeric, pairwise-distinct slot identifiers, a fresh label
that misses both the cache and the sheet is written into the empty row
with the numerically smallest identifier (`rmin`), whose identifier is
returned — allocation is deterministic and ignores the cache's prior
contents. -/
theorem C4_deterministic_allocation (st : ScriptState) (raw n : Str) (rows : List ColorsRow)
    (rmin : ColorsRow) (i2 : Nat)
    (hlk : st.locked = false)
    (hload : loadFromSheet st.sheet = .ok rows)
    (hidx : indexOf? reqLabel (headerOf st.sheet) = some i2)
    (hcache : st.cache = none ∨
      ∃ crows, st.cache = some crows ∧ ∀ r ∈ crows, normalizeLabel_ r.label ≠ n)
    (hnorm : normalizeLabel_ raw = n) (hn : n ≠ [])
    (hnomatch : ∀ r ∈ rows, normalizeLabel_ r.label ≠ n)
    (hids : ∀ r ∈ rows, (parseNum? r.colorId).isSome)
    (hinj : ∀ r ∈ rows, ∀ s ∈ rows, parseNum? r.colorId = parseNum? s.colorId → r = s)
    (hminMem : rmin ∈ rows) (hminE : rmin.label = [])
    (hminLe : ∀ r ∈ rows, r.label = [] → rowLe rmin r = true) :
    resolveOrAssignColorIdByLabel_ (some raw) st =
      (.ok (some rmin.colorId), ⟨setCell st.sheet (rmin.rowIndex - 1) i2 n, none, false⟩) := by
  subst hnorm
  have hfm : rows.find? (fun r => normalizeLabel_ r.label = normalizeLabel_ raw) = none :=
    List.find?_eq_none.mpr (fun r hr => by simpa using hnomatch r hr)
  obtain ⟨h2, j1, j2, j3, j4, hj1, hj2, hj3, hj4, hrows⟩ := loadFromSheet_ok_inv hload
  have hsorted : rows.Pairwise (fun a b => rowLe a b = true) := by
    rw [hrows]
    apply pairwise_sortRows
    intro a ha b hb c hc hab hbc
    have ha' : a ∈ rows := by rw [hrows]; exact mem_sortRows.mpr ha
    have hb' : b ∈ rows := by rw [hrows]; exact mem_sortRows.mpr hb
    have hc' : c ∈ rows := by rw [hrows]; exact mem_sortRows.mpr hc
    obtain ⟨x, hx⟩ := Option.isSome_iff_exists.mp (hids a ha')
    obtain ⟨y, hy⟩ := Option.isSome_iff_exists.mp (hids b hb')
    obtain ⟨z, hz⟩ := Option.isSome_iff_exists.mp (hids c hc')
    unfold rowLe at hab hbc ⊢
    simp only [hx, hy] at hab
    simp only [hy, hz] at hbc
    simp only [hx, hz]
    simp only [Nat.ble_eq] at hab hbc ⊢
    omega
  have hfe : rows.find? (fun r => r.label = []) = some rmin := by
    have hsomeE : (rows.find? (fun r => r.label = [])).isSome :=
      List.find?_isSome.mpr ⟨rmin, hminMem, by simpa using hminE⟩
    obtain ⟨a, hafind⟩ := Option.isSome_iff_exists.mp hsomeE
    have haE : a.label = [] := by simpa using List.find?_some hafind
    have haMem := List.mem_of_find?_eq_some hafind
    have hmin := find?_min_of_pairwise hsorted hafind rmin hminMem (by simpa using hminE)
    have hle2 := hminLe a haMem haE
    have haR : a = rmin := by
      rcases hmin with heq | hle1
      · exact heq
      · obtain ⟨x, hx⟩ := Option.isSome_iff_exists.mp (hids a haMem)
        obtain ⟨y, hy⟩ := Option.isSome_iff_exists.mp (hids rmin hminMem)
        unfold rowLe at hle1 hle2
        simp only [hx, hy] at hle1 hle2
        simp only [Nat.ble_eq] at hle1 hle2
        have hxy : x = y := le_antisymm hle1 hle2
        exact hinj a haMem rmin hminMem (by rw [hx, hy, hxy])
    rw [hafind, haR]
  rcases hcache with hc | ⟨crows, hc, hcno⟩
  · exact (resolve_slow hn (loadColorsRows_none_ok hc hload) hfm).trans
      (slowPath_alloc (s := { st with cache := some rows }) hlk hload hfm hfe hidx)
  · have hfmc : crows.find? (fun r => normalizeLabel_ r.label = normalizeLabel_ raw) = none :=
      List.find?_eq_none.mpr (fun r hr => by simpa using hcno r hr)
    exact (resolve_slow hn (loadColorsRows_some hc) hfmc).trans
      (slowPath_alloc hlk hload hfm hfe hidx)

/-- C10: normalization is trim, strip at most one leading marker, trim
again (the spec's own wording, `specNormalize`), it never maps
characters (the output is a sublist of the input, so letter case is
preserved), and consequently `Acme`/`acme` and `#x`/`##x` are distinct
keys: the case-different and doubly-marked spellings do not resolve to
the already-bound slot but allocate a separate one. -/
theorem C10_normalization_distinct_keys :
    (∀ s : Str, normalizeLabel_ s = specNormalize s) ∧
    (∀ s : Str, (normalizeLabel_ s).Sublist s) ∧
    normalizeLabel_ ("Acme".toList) ≠ normalizeLabel_ ("acme".toList) ∧
    normalizeLabel_ ("#x".toList) ≠ normalizeLabel_ ("##x".toList) ∧
    (resolveOrAssignColorIdByLabel_ (some ("Acme".toList)) exStAcme).1 =
      .ok (some ("1".toList)) ∧
    (resolveOrAssignColorIdByLabel_ (some ("acme".toList)) exStAcme).1 =
      .ok (some ("2".toList)) ∧
    (resolveOrAssignColorIdByLabel_ (some ("#x".toList)) exStTwoEmpty).1 =
      .ok (some ("1".toList)) ∧
    (resolveOrAssignColorIdByLabel_ (some ("##x".toList))
        (resolveOrAssignColorIdByLabel_ (some ("#x".toList)) exStTwoEmpty).2).1 =
      .ok (some ("2".toList)) :=
  ⟨fun _ => rfl, normalizeLabel_sublist, by decide, by decide, rfl, rfl, rfl, rfl⟩

/-- Parsing the sheet after the single-cell label write: the parse still
succeeds, the written row reappears with its label replaced by the
written value, and every other parsed row is an unchanged row of the
original parse. -/
theorem load_setCell {values : List (List Str)} {rows : List ColorsRow} {e0 : ColorsRow}
    {i1 i2 i3 i4 : Nat} {n : Str}
    (hload : loadFromSheet values = .ok rows)
    (hi1 : indexOf? reqId (headerOf values) = some i1)
    (hi2 : indexOf? reqLabel (headerOf values) = some i2)
    (hi3 : indexOf? reqBackground (headerOf values) = some i3)
    (hi4 : indexOf? reqForeground (headerOf values) = some i4)
    (hmem : e0 ∈ rows)
    (hrect : Rect values)
    (htrim : trimStr n = n) :
    ∃ rows', loadFromSheet (setCell values (e0.rowIndex - 1) i2 n) = .ok rows' ∧
      { e0 with label := n } ∈ rows' ∧
      ∀ r ∈ rows', (r ∈ rows ∧ r.rowIndex ≠ e0.rowIndex) ∨ r = { e0 with label := n } := by
  obtain ⟨hge, hle, hneId, hrEq⟩ := mem_load_elim hload hi1 hi2 hi3 hi4 hmem
  have h2 : ¬ values.length < 2 := (loadFromSheet_ok_inv hload).1
  have hp1 : 1 ≤ e0.rowIndex - 1 := by omega
  have hpl : e0.rowIndex - 1 < values.length := by omega
  have hhd : headerOf (setCell values (e0.rowIndex - 1) i2 n) = headerOf values :=
    headerOf_setCell hp1
  have hlen : (setCell values (e0.rowIndex - 1) i2 n).length = values.length :=
    length_setCell values (e0.rowIndex - 1) i2 n
  have h2' : ¬ (setCell values (e0.rowIndex - 1) i2 n).length < 2 := by rw [hlen]; exact h2
  have hi1' : indexOf? reqId (headerOf (setCell values (e0.rowIndex - 1) i2 n)) = some i1 := by
    rw [hhd]; exact hi1
  have hi2' : indexOf? reqLabel (headerOf (setCell values (e0.rowIndex - 1) i2 n)) = some i2 := by
    rw [hhd]; exact hi2
  have hi3' : indexOf? reqBackground (headerOf (setCell values (e0.rowIndex - 1) i2 n)) = some i3 := by
    rw [hhd]; exact hi3
  have hi4' : indexOf? reqForeground (headerOf (setCell values (e0.rowIndex - 1) i2 n)) = some i4 := by
    rw [hhd]; exact hi4
  have hld' := loadFromSheet_eq h2' hi1' hi2' hi3' hi4'
  have d21 : i2 ≠ i1 := indexOf?_ne hi2 hi1 (by decide)
  have d23 : i2 ≠ i3 := indexOf?_ne hi2 hi3 (by decide)
  have d24 : i2 ≠ i4 := indexOf?_ne hi2 hi4 (by decide)
  have hrow' : (setCell values (e0.rowIndex - 1) i2 n).getD (e0.rowIndex - 1) [] =
      (values.getD (e0.rowIndex - 1) []).set i2 n := getD_setCell_self hpl
  have hi2len : i2 < (values.getD (e0.rowIndex - 1) []).length := by
    have hb : i2 < (headerOf values).length := (indexOf?_getD hi2).1
    have hm : (headerOf values).length = (values.getD 0 []).length := by
      unfold headerOf
      rw [headD_eq_getD]
      exact List.length_map _ _
    have hr0 : (values.getD (e0.rowIndex - 1) []).length = (values.getD 0 []).length :=
      hrect _ hpl
    omega
  have hmk : mkRowAt i1 i2 i3 i4 e0.rowIndex ((values.getD (e0.rowIndex - 1) []).set i2 n) =
      { e0 with label := n } := by
    have hcid : e0.colorId = trimStr ((values.getD (e0.rowIndex - 1) []).getD i1 []) := by
      rw [hrEq]; rfl
    have hbg : e0.background = trimStr ((values.getD (e0.rowIndex - 1) []).getD i3 []) := by
      rw [hrEq]; rfl
    have hfg : e0.foreground = trimStr ((values.getD (e0.rowIndex - 1) []).getD i4 []) := by
      rw [hrEq]; rfl
    show (⟨e0.rowIndex, _, _, _, _⟩ : ColorsRow) = ⟨e0.rowIndex, e0.colorId, n, e0.background, e0.foreground⟩
    simp only [ColorsRow.mk.injEq]
    refine ⟨trivial, ?_, ?_, ?_, ?_⟩
    · rw [getD_set_ne d21, hcid]
    · rw [getD_set_self hi2len, htrim]
    · rw [getD_set_ne d23, hbg]
    · rw [getD_set_ne d24, hfg]
  refine ⟨_, hld', ?_, ?_⟩
  · rw [mem_load_iff hld' hi1' hi2' hi3' hi4']
    refine ⟨e0.rowIndex - 2, ?_, ?_, ?_⟩
    · rw [hlen]; omega
    · have hj1 : e0.rowIndex - 2 + 1 = e0.rowIndex - 1 := by omega
      rw [hj1, hrow', getD_set_ne d21]
      exact hneId
    · have hj1 : e0.rowIndex - 2 + 1 = e0.rowIndex - 1 := by omega
      have hj2 : e0.rowIndex - 2 + 2 = e0.rowIndex := by omega
      rw [hj1, hj2, hrow', hmk]
  · intro r hr
    rw [mem_load_iff hld' hi1' hi2' hi3' hi4'] at hr
    obtain ⟨j, hj, hne', hr'⟩ := hr
    by_cases hjp : j + 1 = e0.rowIndex - 1
    · right
      have hj2 : j + 2 = e0.rowIndex := by omega
      rw [hjp, hrow'] at hr'
      rw [hj2] at hr'
      exact hr'.trans hmk
    · left
      have hju : (setCell values (e0.rowIndex - 1) i2 n).getD (j + 1) [] =
          values.getD (j + 1) [] := getD_setCell_ne (fun hh => hjp hh.symm)
      rw [hju] at hne' hr'
      rw [hlen] at hj
      constructor
      · rw [mem_load_iff hload hi1 hi2 hi3 hi4]
        exact ⟨j, hj, hne', hr'⟩
      · rw [hr']
        show j + 2 ≠ e0.rowIndex
        omega

theorem C4_witness :
    resolveOrAssignColorIdByLabel_ (some ("fresh".toList)) exSt357 =
      (.ok (some ("3".toList)), ⟨setCell exSheet357 2 1 ("fresh".toList), none, false⟩) := by
  have h := C4_deterministic_allocation exSt357 ("fresh".toList) ("fresh".toList) exRows357
    ⟨3, "3".toList, [], "b".toList, "f".toList⟩ 1
    rfl rfl rfl (Or.inl rfl) (by decide) (by decide) (by decide) (by decide) (by decide)
    (by decide) (by decide) (by decide)
  exact h

/-- Establish `Rect` from the decidable row-by-row check. -/
theorem Rect_of_forall_mem {values : List (List Str)}
    (h : ∀ row ∈ values, row.length = (values.getD 0 []).length) : Rect values := by
  intro j hj
  have hgd : values.getD j [] = values[j] := by
    rw [List.getD_eq_getElem?_getD, List.getElem?_eq_getElem hj]
    rfl
  rw [hgd]
  exact h _ (List.getElem_mem hj)

/-- If the first call bound slot `r1` (a sheet row matching the first
label), a second successful call for a different, non-empty normalized
label cannot return `r1`'s identifier, slot identifiers being unique. -/
theorem second_call_ne {raw2 S2 : Str} {st1 st2 : ScriptState} {rows : List ColorsRow}
    {r1 : ColorsRow} {n1 : Str}
    (h2 : resolveOrAssignColorIdByLabel_ (some raw2) st1 = (.ok (some S2), st2))
    (hload1 : loadFromSheet st1.sheet = .ok rows)
    (hcache1 : st1.cache = none ∨ st1.cache = some rows)
    (hinj : ∀ r ∈ rows, ∀ s ∈ rows, r.colorId = s.colorId → r = s)
    (hm1 : r1 ∈ rows) (hl1 : normalizeLabel_ r1.label = n1)
    (hn1 : n1 ≠ []) (hne12 : n1 ≠ normalizeLabel_ raw2) :
    r1.colorId ≠ S2 := by
  intro hSS
  rcases resolve_ok_match_row h2 hload1 hcache1 with ⟨r2, hm2, hl2, hS2⟩ | ⟨r2, hm2, he2, hS2⟩
  · have hr12 : r1 = r2 := hinj r1 hm1 r2 hm2 (hSS.trans hS2)
    rw [hr12, hl2] at hl1
    exact hne12 hl1.symm
  · have hr12 : r1 = r2 := hinj r1 hm1 r2 hm2 (hSS.trans hS2)
    rw [hr12, he2] at hl1
    exact hn1 (hl1.symm.trans rfl)

/-- C1 fails on the code as stated: starting from a freshly provisioned
table (which satisfies the invariant), the call `resolve "##x"` writes
the still-marked string `#x` into a slot; on the table that already
binds `x` this creates two rows with the same normalized label, and on
a fresh table the two distinct normalized keys `#x` and `x` then
resolve to the same slot 1. -/
theorem C1_counterexample :
    labelsDupFree exStTwoEmpty.sheet = true ∧
    labelsDupFree ((resolveOrAssignColorIdByLabel_ (some ("x".toList)) exStTwoEmpty).2).sheet
      = true ∧
    labelsDupFree ((resolveOrAssignColorIdByLabel_ (some ("##x".toList))
        (resolveOrAssignColorIdByLabel_ (some ("x".toList)) exStTwoEmpty).2).2).sheet = false ∧
    normalizeLabel_ ("##x".toList) ≠ normalizeLabel_ ("x".toList) ∧
    (resolveOrAssignColorIdByLabel_ (some ("##x".toList)) exStTwoEmpty).1 =
      .ok (some ("1".toList)) ∧
    (resolveOrAssignColorIdByLabel_ (some ("x".toList))
        (resolveOrAssignColorIdByLabel_ (some ("##x".toList)) exStTwoEmpty).2).1 =
      .ok (some ("1".toList)) :=
  ⟨rfl, rfl, rfl, by decide, rfl, rfl⟩

/-- C1 (amended): restricted to labels whose normalized form is trimmed
and carries no residual leading marker, the code does keep the
invariant: (a) a resolver call preserves at-most-one-row-per-normalized-
label on a rectangular sheet, and (b) two successive successful calls
for distinct such labels, on a duplicate-free table with unique slot
identifiers and a coherent cache, never return the same slot. -/
theorem C1_amended_no_duplicate_bindings :
    (∀ (st : ScriptState) (lab : Option Str),
      Rect st.sheet →
      (∀ l, lab = some l → stripHash (normalizeLabel_ l) = normalizeLabel_ l ∧
        trimStr (normalizeLabel_ l) = normalizeLabel_ l) →
      labelsDupFree st.sheet = true →
      labelsDupFree ((resolveOrAssignColorIdByLabel_ lab st).2).sheet = true)
    ∧
    (∀ (st st1 st2 : ScriptState) (raw1 raw2 S1 S2 : Str) (rows : List ColorsRow),
      loadFromSheet st.sheet = .ok rows →
      (st.cache = none ∨ st.cache = some rows) →
      Rect st.sheet →
      (∀ r ∈ rows, ∀ s ∈ rows, r.colorId = s.colorId → r = s) →
      stripHash (normalizeLabel_ raw1) = normalizeLabel_ raw1 →
      trimStr (normalizeLabel_ raw1) = normalizeLabel_ raw1 →
      normalizeLabel_ raw1 ≠ normalizeLabel_ raw2 →
      resolveOrAssignColorIdByLabel_ (some raw1) st = (.ok (some S1), st1) →
      resolveOrAssignColorIdByLabel_ (some raw2) st1 = (.ok (some S2), st2) →
      S1 ≠ S2) := by
  constructor
  · intro st lab hrect hfix hdup
    rcases resolve_sheet_cases lab st with hsheet |
      ⟨l, rows, e0, ci, hlab, hn, hload, hnom, hmem, hlabE, hidx, hres⟩
    · rw [hsheet]
      exact hdup
    · have hsheet' : ((resolveOrAssignColorIdByLabel_ lab st).2).sheet =
          setCell st.sheet (e0.rowIndex - 1) ci (normalizeLabel_ l) := by rw [hres]
      rw [hsheet']
      obtain ⟨hstrip, htrim⟩ := hfix l hlab
      have hnn : normalizeLabel_ (normalizeLabel_ l) = normalizeLabel_ l := by
        have h0 : normalizeLabel_ (normalizeLabel_ l) =
            trimStr (stripHash (trimStr (normalizeLabel_ l))) := rfl
        rw [h0, htrim, hstrip, htrim]
      obtain ⟨h2, i1, i2, i3, i4, hi1, hi2, hi3, hi4, _⟩ := loadFromSheet_ok_inv hload
      have hci : ci = i2 := Option.some.inj (hidx.symm.trans hi2)
      subst hci
      obtain ⟨rows', hld', hruMem, hchar⟩ := load_setCell hload hi1 hi2 hi3 hi4 hmem hrect htrim
      rw [labelsDupFree_iff hld']
      have hdup' := (labelsDupFree_iff hload).mp hdup
      intro r hr s hs hrne hsne hnorm
      rcases hchar r hr with ⟨hrOld, hrIdx⟩ | hrRu
      · rcases hchar s hs with ⟨hsOld, hsIdx⟩ | hsRu
        · exact hdup' r hrOld s hsOld hrne hsne hnorm
        · exfalso
          rw [hsRu] at hnorm
          have hmatch : normalizeLabel_ r.label = normalizeLabel_ l := by
            rw [hnorm]
            exact hnn
          exact hnom r hrOld hmatch
      · rcases hchar s hs with ⟨hsOld, hsIdx⟩ | hsRu
        · exfalso
          rw [hrRu] at hnorm
          have hmatch : normalizeLabel_ s.label = normalizeLabel_ l := by
            rw [← hnorm]
            exact hnn
          exact hnom s hsOld hmatch
        · rw [hrRu, hsRu]
  · intro st st1 st2 raw1 raw2 S1 S2 rows hload hcache hrect hinj hstrip htrim hne12 h1 h2
    have hnn : normalizeLabel_ (normalizeLabel_ raw1) = normalizeLabel_ raw1 := by
      have h0 : normalizeLabel_ (normalizeLabel_ raw1) =
          trimStr (stripHash (trimStr (normalizeLabel_ raw1))) := rfl
      rw [h0, htrim, hstrip, htrim]
    obtain ⟨hn1, hcases1⟩ := resolve_ok_elim h1
    rcases hcases1 with ⟨crows, r1, hc, hm1, hl1, hS1, hst1⟩ |
      ⟨rows0, r1, hcN, hs0, hm1, hl1, hS1, hst1⟩ |
      ⟨rows0, r1, hs0, hm1, hl1, hS1, hst1⟩ |
      ⟨rows0, e1, ci, hs0, hnom1, hm1, hl1, hS1, hidx1, hst1⟩
    · -- fast path, cache hit: the cache must be the sheet snapshot
      rcases hcache with hcn | hcs
      · rw [hcn] at hc
        exact absurd hc (by simp)
      · rw [hcs] at hc
        injection hc with hc
        subst hc
        subst hst1
        rw [hS1]
        exact second_call_ne h2 hload (Or.inr hcs) hinj hm1 hl1 hn1 hne12
    · -- fast path, read-through
      rw [hload] at hs0
      injection hs0 with hs0
      subst hs0
      subst hst1
      rw [hS1]
      exact second_call_ne h2 hload (Or.inr rfl) hinj hm1 hl1 hn1 hne12
    · -- slow path, existing binding on re-read
      rw [hload] at hs0
      injection hs0 with hs0
      subst hs0
      subst hst1
      rw [hS1]
      exact second_call_ne h2 hload (Or.inr rfl) hinj hm1 hl1 hn1 hne12
    · -- slow path, allocation
      rw [hload] at hs0
      injection hs0 with hs0
      subst hs0
      obtain ⟨h2', i1, i2, i3, i4, hi1, hi2, hi3, hi4, _⟩ := loadFromSheet_ok_inv hload
      have hci : ci = i2 := Option.some.inj (hidx1.symm.trans hi2)
      subst hci
      obtain ⟨rows', hld', hruMem, hchar⟩ := load_setCell hload hi1 hi2 hi3 hi4 hm1 hrect htrim
      subst hst1
      rw [hS1]
      intro hSS
      rcases resolve_ok_match_row h2 hld' (Or.inl rfl) with
        ⟨r2, hm2, hl2, hS2⟩ | ⟨r2, hm2, he2, hS2⟩
      · rcases hchar r2 hm2 with ⟨hr2Old, hr2Idx⟩ | hr2Ru
        · have : e1 = r2 := hinj e1 hm1 r2 hr2Old (hSS.trans hS2)
          exact hr2Idx (congrArg ColorsRow.rowIndex this).symm
        · rw [hr2Ru] at hl2
          exact hne12 (hnn.symm.trans hl2)
      · rcases hchar r2 hm2 with ⟨hr2Old, hr2Idx⟩ | hr2Ru
        · have : e1 = r2 := hinj e1 hm1 r2 hr2Old (hSS.trans hS2)
          exact hr2Idx (congrArg ColorsRow.rowIndex this).symm
        · rw [hr2Ru] at he2
          exact hn1 he2

theorem C1_amended_witness :
    labelsDupFree ((resolveOrAssignColorIdByLabel_ (some ("zed".toList)) exStAcme).2).sheet
      = true ∧
    ("1".toList : Str) ≠ "2".toList :=
  ⟨C1_amended_no_duplicate_bindings.1 exStAcme (some ("zed".toList))
      (Rect_of_forall_mem (by decide))
      (fun l hl => by cases hl; exact ⟨by decide, by decide⟩) rfl,
   C1_amended_no_duplicate_bindings.2 exStAcme
      (resolveOrAssignColorIdByLabel_ (some ("Acme".toList)) exStAcme).2
      (resolveOrAssignColorIdByLabel_ (some ("new".toList))
        (resolveOrAssignColorIdByLabel_ (some ("Acme".toList)) exStAcme).2).2
      ("Acme".toList) ("new".toList) ("1".toList) ("2".toList) exRowsAcme
      rfl (Or.inl rfl) (Rect_of_forall_mem (by decide)) (by decide)
      (by decide) (by decide) (by decide) rfl rfl⟩

/-- C9 fails on the code as stated: for the never-before-seen label
`##x` (normalizing to the still-marked `#x`) against a table with one
empty slot, the first call allocates slot 1, but the racing call — its
fast-path check ran against the pre-write table and missed — then
enters the lock-protected section and fails with NoCapacity instead of
returning the same slot. -/
theorem C9_counterexample :
    (loadFromSheet exStOneEmpty.sheet = .ok exRowsOneEmpty ∧
      exRowsOneEmpty.find?
        (fun r => normalizeLabel_ r.label = normalizeLabel_ ("##x".toList)) = none) ∧
    (resolveOrAssignColorIdByLabel_ (some ("##x".toList)) exStOneEmpty).1 =
      .ok (some ("1".toList)) ∧
    (slowPath (normalizeLabel_ ("##x".toList))
        (resolveOrAssignColorIdByLabel_ (some ("##x".toList)) exStOneEmpty).2).1 =
      .error (.noCapacity (normalizeLabel_ ("##x".toList))) :=
  ⟨⟨rfl, rfl⟩, rfl, rfl⟩

/-- C9 (amended): for a label whose normalized form is trimmed and
marker-free, against a table with no existing match and exactly one
empty slot, the lock-serialized race is benign: the first call
allocates the empty slot, the delayed second critical section (its
fast path missed on the pre-write snapshot) re-reads the sheet, finds
the binding, returns the same slot identifier, writes nothing, and the
table ends with exactly one row bound to the label. -/
theorem C9_amended_duplicate_label_race (st : ScriptState) (raw n : Str)
    (rows : List ColorsRow) (e0 : ColorsRow)
    (hlk : st.locked = false)
    (hload : loadFromSheet st.sheet = .ok rows)
    (hcache : st.cache = none ∨ st.cache = some rows)
    (hrect : Rect st.sheet)
    (hnorm : normalizeLabel_ raw = n) (hn : n ≠ [])
    (hstrip : stripHash n = n) (htrim : trimStr n = n)
    (hnomatch : ∀ r ∈ rows, normalizeLabel_ r.label ≠ n)
    (hmemE : e0 ∈ rows) (he0 : e0.label = [])
    (huniq : ∀ r ∈ rows, r.label = [] → r = e0) :
    ∃ st1 st2,
      resolveOrAssignColorIdByLabel_ (some raw) st = (.ok (some e0.colorId), st1) ∧
      slowPath n st1 = (.ok (some e0.colorId), st2) ∧
      st2.sheet = st1.sheet ∧
      ∃ rows1, loadFromSheet st1.sheet = .ok rows1 ∧ { e0 with label := n } ∈ rows1 ∧
        ∀ r ∈ rows1, normalizeLabel_ r.label = n → r = { e0 with label := n } := by
  subst hnorm
  have hnn : normalizeLabel_ (normalizeLabel_ raw) = normalizeLabel_ raw := by
    have h0 : normalizeLabel_ (normalizeLabel_ raw) =
        trimStr (stripHash (trimStr (normalizeLabel_ raw))) := rfl
    rw [h0, htrim, hstrip, htrim]
  have hfm : rows.find? (fun r => normalizeLabel_ r.label = normalizeLabel_ raw) = none :=
    List.find?_eq_none.mpr (fun r hr => by simpa using hnomatch r hr)
  have hfe : rows.find? (fun r => r.label = []) = some e0 :=
    find?_eq_of_unique hmemE (by simpa using he0)
      (fun b hb hpb => huniq b hb (by simpa using hpb))
  obtain ⟨h2, i1, i2, i3, i4, hi1, hi2, hi3, hi4, _⟩ := loadFromSheet_ok_inv hload
  have hcall1 : resolveOrAssignColorIdByLabel_ (some raw) st =
      (.ok (some e0.colorId),
        ⟨setCell st.sheet (e0.rowIndex - 1) i2 (normalizeLabel_ raw), none, false⟩) := by
    rcases hcache with hc | hc
    · exact (resolve_slow hn (loadColorsRows_none_ok hc hload) hfm).trans
        (slowPath_alloc (s := { st with cache := some rows }) hlk hload hfm hfe hi2)
    · exact (resolve_slow hn (loadColorsRows_some hc) hfm).trans
        (slowPath_alloc hlk hload hfm hfe hi2)
  obtain ⟨rows1, hld1, hruMem, hchar⟩ := load_setCell hload hi1 hi2 hi3 hi4 hmemE hrect htrim
  have huniq1 : ∀ r ∈ rows1, normalizeLabel_ r.label = normalizeLabel_ raw →
      r = { e0 with label := normalizeLabel_ raw } := by
    intro r hr hmatch
    rcases hchar r hr with ⟨hrOld, _⟩ | hrRu
    · exact absurd hmatch (hnomatch r hrOld)
    · exact hrRu
  have hfind1 : rows1.find? (fun r => normalizeLabel_ r.label = normalizeLabel_ raw) =
      some { e0 with label := normalizeLabel_ raw } :=
    find?_eq_of_unique hruMem (by simpa using hnn)
      (fun b hb hpb => huniq1 b hb (by simpa using hpb))
  refine ⟨⟨setCell st.sheet (e0.rowIndex - 1) i2 (normalizeLabel_ raw), none, false⟩,
    ⟨setCell st.sheet (e0.rowIndex - 1) i2 (normalizeLabel_ raw), some rows1, false⟩,
    hcall1, ?_, rfl, rows1, hld1, hruMem, huniq1⟩
  exact slowPath_existing (q := { e0 with label := normalizeLabel_ raw }) rfl hld1 hfind1

theorem C9_amended_witness :
    ∃ st1 st2,
      resolveOrAssignColorIdByLabel_ (some ("NewClient".toList)) exStOneEmpty =
        (.ok (some ("1".toList)), st1) ∧
      slowPath ("NewClient".toList) st1 = (.ok (some ("1".toList)), st2) ∧
      st2.sheet = st1.sheet ∧
      ∃ rows1, loadFromSheet st1.sheet = .ok rows1 ∧
        { rowIndex := 2, colorId := "1".toList, label := "NewClient".toList,
          background := "b".toList, foreground := "f".toList : ColorsRow } ∈ rows1 ∧
        ∀ r ∈ rows1, normalizeLabel_ r.label = "NewClient".toList →
          r = { rowIndex := 2, colorId := "1".toList, label := "NewClient".toList,
                background := "b".toList, foreground := "f".toList : ColorsRow } := by
  have h := C9_amended_duplicate_label_race exStOneEmpty ("NewClient".toList)
    ("NewClient".toList) exRowsOneEmpty ⟨2, "1".toList, [], "b".toList, "f".toList⟩
    rfl rfl (Or.inl rfl) (Rect_of_forall_mem (by decide)) (by decide) (by decide)
    (by decide) (by decide) (by decide) (by decide) rfl (by decide)
  exact h

end Text2Cal
